import Mathlib

/-!
Verification of the SOF memory allocator (`src/lib/alloc.c`).

This file gives a shallow embedding of the allocator's data model and of the
operations the checked claims are about, and proves the claims over that
embedding.

Modelling conventions, used throughout:
* machine addresses and `uint32_t`/`size_t` quantities are `Nat`; a C `NULL`
  pointer is the value `0`, exactly as the code compares pointers against 0;
* wrap-around of unsigned arithmetic is written out explicitly (`% 4294967296`)
  only where the code's behaviour depends on it (the power-of-two guard's
  `alignment - 1`); everywhere else the quantities are guarded by the code
  itself and plain `Nat` arithmetic coincides with the C semantics;
* `platform_shared_commit` is a cache write-back hook with no effect on the
  descriptor values; it is dropped from the functional model;
* `panic(SOF_IPC_PANIC_MEM)` and the undefined behaviour of `% 0` are modelled
  by an `Except` error outcome;
* the debug-only code under `CONFIG_DEBUG_BLOCK_FREE` / `CONFIG_DEBUG_HEAP`
  is compiled out in the modelled configuration.
-/

/-- Outcome of an allocator operation that can fail fatally: `panicMem` models
`panic(SOF_IPC_PANIC_MEM)`; `divByZero` marks that evaluation reached a C `%`
expression with a zero divisor (undefined behaviour). -/
inductive AllocErr where
  | panicMem : AllocErr
  | divByZero : AllocErr
deriving DecidableEq, Repr

/-- Embedding of `struct block_hdr`: per-block header with run length (`size`),
used flag and the saved unaligned base pointer (0 means `NULL`). -/
structure BlockHdr where
  size : Nat
  used : Bool
  unaligned_ptr : Nat
deriving DecidableEq, Repr

instance : Inhabited BlockHdr := ⟨⟨0, false, 0⟩⟩

/-- Embedding of `struct block_map`: an array of `count` equal-sized blocks
starting at address `base`, with its header array `block`. -/
structure BlockMap where
  block_size : Nat
  count : Nat
  base : Nat
  first_free : Nat
  free_count : Nat
  block : List BlockHdr
deriving DecidableEq, Repr

instance : Inhabited BlockMap := ⟨⟨0, 0, 0, 0, 0, []⟩⟩

/-- Embedding of `struct mm_info`: the in-use / free byte counters of a heap. -/
structure HeapInfo where
  used : Nat
  free : Nat
deriving DecidableEq, Repr

instance : Inhabited HeapInfo := ⟨⟨0, 0⟩⟩

/-- Embedding of `struct mm_heap`: base address `heap`, byte size, capability
mask and the list of block maps (`heap->blocks` is `map.length`). -/
structure MmHeap where
  heap : Nat
  size : Nat
  caps : Nat
  map : List BlockMap
  info : HeapInfo
deriving DecidableEq, Repr

instance : Inhabited MmHeap := ⟨⟨0, 0, 0, [], ⟨0, 0⟩⟩⟩

/-- Embedding of `struct mm`: the process-wide memory map with its four heap
arrays and the trace-dirty flag.  The spinlock itself carries no data and is
treated in the locking model further below. -/
structure Mm where
  system : List MmHeap
  system_runtime : List MmHeap
  runtime : List MmHeap
  buffer : List MmHeap
  heap_trace_updated : Bool
deriving DecidableEq, Repr

/-- Modelled from the spec: `PLATFORM_DCACHE_ALIGN`, the platform data-cache
alignment, a compile-time power-of-two constant provided by the platform layer
(the platform headers defining it are not part of the sources). -/
def PLATFORM_DCACHE_ALIGN : Nat := 64

/-- Modelled from the spec: the `Shared` flag bit `SOF_MEM_FLAG_SHARED`
(its header is not part of the sources; the spec lists `Shared` as the minimal
flag bit of the bitmask). -/
def SOF_MEM_FLAG_SHARED : Nat := 1

/-- Embedding of `align_ptr` (the pointer computation; the store of the
unaligned pointer into the header is performed at the call sites of the
model, exactly where the code passes `hdr`): if `alignment` is non-zero and
`ptr` is not aligned, shift `ptr` up to the next multiple of `alignment`. -/
def align_ptr (alignment ptr : Nat) : Nat :=
  ptr + (if alignment ≠ 0 ∧ ptr % alignment ≠ 0 then alignment - ptr % alignment else 0)

/-- Embedding of the `find next free` scan at the end of `alloc_block`:
starting at index `i`, return the first index whose header is not used;
`none` when the scan runs out (`fuel` counts the remaining positions up to
`map->count`).  The C loop leaves `first_free` unchanged in that case. -/
def findFreeAux (bl : List BlockHdr) (i : Nat) : Nat → Option Nat
  | 0 => none
  | fuel + 1 =>
    match bl.get? i with
    | none => none
    | some h => if h.used then findFreeAux bl (i + 1) fuel else some i

/-- Raw (unaligned) address of the block at `first_free`:
`map->base + map->first_free * map->block_size` in `alloc_block`. -/
def abRaw (m : BlockMap) : Nat := m.base + m.first_free * m.block_size

/-- Header array after `alloc_block` marks the block at `first_free`:
`hdr->size = 1; hdr->used = 1;` with the raw pointer saved by `align_ptr`. -/
def abBlocks (m : BlockMap) : List BlockHdr :=
  m.block.set m.first_free { size := 1, used := true, unaligned_ptr := abRaw m }

/-- Value of `first_free` after the linear rescan of `alloc_block`; the C
loop leaves `first_free` unchanged when it finds no free header. -/
def abFF (m : BlockMap) : Nat :=
  (findFreeAux (abBlocks m) m.first_free (m.count - m.first_free)).getD m.first_free

/-- Block map after `alloc_block` on it. -/
def abMap (m : BlockMap) : BlockMap :=
  { m with free_count := m.free_count - 1, block := abBlocks m, first_free := abFF m }

/-- Embedding of `alloc_block`: allocate the block at `first_free` of map
`level`, save the raw pointer in the header, align the returned pointer, mark
the header used with run length 1, update the heap counters, and advance
`first_free` by linear scan (leaving it unchanged when no free block
remains). -/
def alloc_block (heap : MmHeap) (level : Nat) (caps alignment : Nat) : Nat × MmHeap :=
  let map := heap.map.getD level default
  (align_ptr alignment (abRaw map),
   { heap with
     map := (heap.map.set level (abMap map)),
     info := { used := heap.info.used + map.block_size,
               free := heap.info.free - map.block_size } })

/-- Embedding of the consecutive-run scan of `alloc_cont_blocks`: walk from
`current` while fewer than `needed` consecutive free blocks have been seen,
resetting the run on a used block and recording the run start; returns the
final `(start, remaining)` pair of the C loop. -/
def contScanAux (bl : List BlockHdr) (needed : Nat) : Nat → Nat → Nat → Nat → Nat × Nat
  | 0, _current, start, remaining => (start, remaining)
  | fuel + 1, current, start, remaining =>
    if remaining ≥ needed then (start, remaining)
    else
      match bl.get? current with
      | none => (start, remaining)
      | some h =>
        if h.used then contScanAux bl needed fuel (current + 1) start 0
        else if remaining = 0 then contScanAux bl needed fuel (current + 1) current 1
        else contScanAux bl needed fuel (current + 1) start (remaining + 1)

/-- Embedding of the `first_free` update loop of `alloc_cont_blocks`: starting
at `j`, skip used headers and return the index of the first free one; when the
scan exhausts its `fuel` (reaches `map->count`) it returns the index reached. -/
def ffScanUp (bl : List BlockHdr) : Nat → Nat → Nat
  | 0, j => j
  | fuel + 1, j =>
    match bl.get? j with
    | none => j
    | some h => if h.used then ffScanUp bl fuel (j + 1) else j

/-- Embedding of the `update each block` loop of `alloc_cont_blocks`: mark `n`
headers starting at `start` as used and store the saved unaligned run base in
each of them. -/
def markRun : List BlockHdr → Nat → Nat → Nat → List BlockHdr
  | bl, _raw, _start, 0 => bl
  | bl, raw, start, n + 1 =>
    markRun (bl.set start { bl.getD start default with used := true, unaligned_ptr := raw })
      raw (start + 1) n

/-- Number of blocks a contiguous request needs:
`count = bytes / block_size`, rounded up (`if (bytes % block_size) count++`). -/
def contNeeded (m : BlockMap) (bytes : Nat) : Nat :=
  bytes / m.block_size + (if bytes % m.block_size ≠ 0 then 1 else 0)

/-- Result `(start, remaining)` of the consecutive-run scan of
`alloc_cont_blocks`, which walks from `first_free`. -/
def contScanRes (m : BlockMap) (bytes : Nat) : Nat × Nat :=
  contScanAux m.block (contNeeded m bytes) (m.count - m.first_free) m.first_free m.first_free 0

/-- Raw base address of the found run: `base + start * block_size`. -/
def contRaw (m : BlockMap) (bytes : Nat) : Nat :=
  m.base + (contScanRes m bytes).1 * m.block_size

/-- Header array after the run-length store (`hdr->size = count`) and the
`align_ptr` save of the unaligned run base on the first block of the run. -/
def contBl1 (m : BlockMap) (bytes : Nat) : List BlockHdr :=
  m.block.set (contScanRes m bytes).1
    { m.block.getD (contScanRes m bytes).1 default with
      size := contNeeded m bytes, unaligned_ptr := contRaw m bytes }

/-- New `first_free` of `alloc_cont_blocks`: moved past the run (to the next
free header, or to `count`) only when the run starts at `first_free`;
computed before the run's headers are marked used, exactly as in the code. -/
def contFF (m : BlockMap) (bytes : Nat) : Nat :=
  if m.first_free = (contScanRes m bytes).1 then
    ffScanUp (contBl1 m bytes) (m.count - ((contScanRes m bytes).1 + contNeeded m bytes))
      ((contScanRes m bytes).1 + contNeeded m bytes)
  else m.first_free

/-- Header array after the final `update each block` loop. -/
def contMarked (m : BlockMap) (bytes : Nat) : List BlockHdr :=
  markRun (contBl1 m bytes) (contRaw m bytes) (contScanRes m bytes).1 (contNeeded m bytes)

/-- Block map after a successful `alloc_cont_blocks` on it. -/
def contMap (m : BlockMap) (bytes : Nat) : BlockMap :=
  { m with free_count := m.free_count - contNeeded m bytes,
           block := contMarked m bytes, first_free := contFF m bytes }

/-- Embedding of `alloc_cont_blocks`: allocate `ceil(bytes / block_size)`
consecutive blocks from map `level`; on failure return `(0, heap)` (the C
function returns `NULL` and leaves the heap untouched). -/
def alloc_cont_blocks (heap : MmHeap) (level : Nat) (caps bytes alignment : Nat) :
    Nat × MmHeap :=
  let map := heap.map.getD level default
  if contNeeded map bytes > map.count ∨ (contScanRes map bytes).2 < contNeeded map bytes then
    (0, heap)
  else
    (align_ptr alignment (contRaw map bytes),
     { heap with
       map := (heap.map.set level (contMap map bytes)),
       info := { used := heap.info.used + contNeeded map bytes * map.block_size,
                 free := heap.info.free - contNeeded map bytes * map.block_size } })

/-- Embedding of the power-of-two guard `(alignment & (alignment - 1)) != 0`
shared by `get_ptr_from_heap` and `alloc_heap_buffer`.  The subtraction is the
C `uint32_t` wrap-around one, so `alignment = 0` yields `0 & 0xffffffff = 0`
and the guard accepts 0. -/
def pow2_guard_fails (alignment : Nat) : Bool :=
  alignment &&& ((alignment + 4294967295) % 4294967296) != 0

/-- Checked modulo: the value of a C `%` expression, or `divByZero` when the
divisor is zero (the C expression is undefined behaviour there). -/
def cmod (a b : Nat) : Except AllocErr Nat :=
  if b = 0 then .error .divByZero else .ok (a % b)

/-- Embedding of the map-scan loop of `get_ptr_from_heap`: find the first map
whose block size fits the (alignment-adjusted) request and which has a free
block, and allocate from it; the `%` here is guarded by `alignment &&` in the
source, hence total.  Returns `(0, heap)` when no map fits. -/
def gptrLoop (heap : MmHeap) (caps bytes alignment : Nat) (i : Nat) : Nat → Nat × MmHeap
  | 0 => (0, heap)
  | fuel + 1 =>
    match heap.map.get? i with
    | none => (0, heap)
    | some map =>
      let temp_bytes :=
        if alignment ≠ 0 ∧ (map.base + map.block_size * map.first_free) % alignment ≠ 0 then
          bytes + alignment
        else bytes
      if map.block_size < temp_bytes then gptrLoop heap caps bytes alignment (i + 1) fuel
      else if map.free_count = 0 then gptrLoop heap caps bytes alignment (i + 1) fuel
      else alloc_block heap i caps alignment

/-- Embedding of `get_ptr_from_heap`: panic on non-power-of-two alignment,
scan the maps for a single block, and apply the shared-memory translation
`sg` (`platform_shared_get`) when the `Shared` flag is set. -/
def get_ptr_from_heap (sg : Nat → Nat → Nat) (heap : MmHeap)
    (flags caps bytes alignment : Nat) : Except AllocErr (Nat × MmHeap) :=
  if pow2_guard_fails alignment then .error .panicMem
  else
    let r := gptrLoop heap caps bytes alignment 0 heap.map.length
    let ptr := if r.1 ≠ 0 ∧ flags &&& SOF_MEM_FLAG_SHARED ≠ 0 then sg r.1 bytes else r.1
    .ok (ptr, r.2)

/-- Embedding of the single-block loop of `alloc_heap_buffer`.  Unlike
`gptrLoop`, the alignment modulo here is not guarded by a non-zero check in
the source, so it is the checked `cmod`. -/
def ahbSingle (heap : MmHeap) (caps bytes alignment : Nat) (i : Nat) :
    Nat → Except AllocErr (Nat × MmHeap)
  | 0 => .ok (0, heap)
  | fuel + 1 =>
    match heap.map.get? i with
    | none => .ok (0, heap)
    | some map => do
      let r ← cmod (map.base + map.block_size * map.first_free) alignment
      let temp_bytes := if r ≠ 0 then bytes + alignment else bytes
      if map.block_size ≥ temp_bytes ∧ map.free_count ≠ 0 then
        .ok (alloc_block heap i caps alignment)
      else
        ahbSingle heap caps bytes alignment (i + 1) fuel

/-- Embedding of the contiguous fallback loop of `alloc_heap_buffer`: try map
indices from the largest downwards, on maps whose block size is below the
(inflated) request, while the heap is large enough; the argument of the
constructor `i + 1` is the C index `i`. -/
def ahbCont (heap : MmHeap) (caps bytes alignment : Nat) : Nat → Nat × MmHeap
  | 0 => (0, heap)
  | i + 1 =>
    let map := heap.map.getD i default
    if heap.size ≥ bytes ∧ map.block_size < bytes then
      let r := alloc_cont_blocks heap i caps bytes alignment
      if r.1 ≠ 0 then r else ahbCont r.2 caps bytes alignment i
    else ahbCont heap caps bytes alignment i

/-- Embedding of `alloc_heap_buffer`: power-of-two guard (which accepts 0),
single-block attempt, inflation of `bytes` by `alignment`, contiguous
fallback from the largest block size downwards, and the `Shared`
translation on the final pointer. -/
def alloc_heap_buffer (sg : Nat → Nat → Nat) (heap : MmHeap)
    (flags caps bytes alignment : Nat) : Except AllocErr (Nat × MmHeap) :=
  if pow2_guard_fails alignment then .error .panicMem
  else do
    let r0 ← ahbSingle heap caps bytes alignment 0 heap.map.length
    let bytes2 := bytes + alignment
    let r1 := if r0.1 = 0 then ahbCont r0.2 caps bytes2 alignment r0.2.map.length else r0
    let ptr := if r1.1 ≠ 0 ∧ flags &&& SOF_MEM_FLAG_SHARED ≠ 0 then sg r1.1 bytes2 else r1.1
    .ok (ptr, r1.2)

/-- Embedding of `get_heap_from_caps`: index of the first heap of the array
whose capability mask covers the requested bits (`caps & requested ==
requested`), `none` when no heap matches. -/
def get_heap_from_caps (heaps : List MmHeap) (caps : Nat) : Option Nat :=
  match heaps with
  | [] => none
  | h :: t =>
    if h.caps &&& caps = caps then some 0
    else (get_heap_from_caps t caps).map (fun k => k + 1)

/-- Embedding of `rmalloc_sys`: bump allocation from the per-core system
heap; panics on a capability mismatch or when the arena cannot fit the
dcache-aligned request. -/
def rmalloc_sys (sg : Nat → Nat → Nat) (flags caps core bytes : Nat) (mm : Mm) :
    Except AllocErr (Nat × Mm) :=
  let cpu_heap := mm.system.getD core default
  if cpu_heap.caps &&& caps ≠ caps then .error .panicMem
  else
    let alignment :=
      if cpu_heap.info.used % PLATFORM_DCACHE_ALIGN ≠ 0 then
        PLATFORM_DCACHE_ALIGN - cpu_heap.info.used % PLATFORM_DCACHE_ALIGN
      else 0
    if alignment + bytes > cpu_heap.info.free then .error .panicMem
    else
      let used1 := cpu_heap.info.used + alignment
      let ptr := cpu_heap.heap + used1
      let cpu_heap' :=
        { cpu_heap with
          info := { used := used1 + bytes, free := cpu_heap.info.free - (alignment + bytes) } }
      let ptr := if flags &&& SOF_MEM_FLAG_SHARED ≠ 0 then sg ptr bytes else ptr
      .ok (ptr, { mm with system := (mm.system.set core cpu_heap') })

/-- Embedding of `rmalloc_sys_runtime`: single block from the per-core
system-runtime heap, with a capability panic guard. -/
def rmalloc_sys_runtime (sg : Nat → Nat → Nat) (flags caps core bytes : Nat) (mm : Mm) :
    Except AllocErr (Nat × Mm) :=
  let cpu_heap := mm.system_runtime.getD core default
  if cpu_heap.caps &&& caps ≠ caps then .error .panicMem
  else do
    let r ← get_ptr_from_heap sg cpu_heap flags caps bytes PLATFORM_DCACHE_ALIGN
    .ok (r.1, { mm with system_runtime := (mm.system_runtime.set core r.2) })

/-- Embedding of `rmalloc_runtime`: select the first runtime heap matching
the capabilities, falling through to the buffer heaps; `NULL` when neither
array has a matching heap. -/
def rmalloc_runtime (sg : Nat → Nat → Nat) (flags caps bytes : Nat) (mm : Mm) :
    Except AllocErr (Nat × Mm) :=
  match get_heap_from_caps mm.runtime caps with
  | some i => do
    let r ← get_ptr_from_heap sg (mm.runtime.getD i default) flags caps bytes
      PLATFORM_DCACHE_ALIGN
    .ok (r.1, { mm with runtime := (mm.runtime.set i r.2) })
  | none =>
    match get_heap_from_caps mm.buffer caps with
    | some i => do
      let r ← get_ptr_from_heap sg (mm.buffer.getD i default) flags caps bytes
        PLATFORM_DCACHE_ALIGN
      .ok (r.1, { mm with buffer := (mm.buffer.set i r.2) })
    | none => .ok (0, mm)

/-- The four allocation zones (`enum mem_zone`). -/
inductive MemZone where
  | sys : MemZone
  | sysRuntime : MemZone
  | runtime : MemZone
  | buffer : MemZone
deriving DecidableEq, Repr

/-- Embedding of `_malloc_unlocked`: dispatch on the zone; the default branch
(`SOF_MEM_ZONE_BUFFER` falls into it) is a panic; on every non-panic path the
trace-dirty flag is raised. -/
def mallocUnlocked (sg : Nat → Nat → Nat) (core : Nat) (zone : MemZone)
    (flags caps bytes : Nat) (mm : Mm) : Except AllocErr (Nat × Mm) := do
  let r ← match zone with
    | .sys => rmalloc_sys sg flags caps core bytes mm
    | .sysRuntime => rmalloc_sys_runtime sg flags caps core bytes mm
    | .runtime => rmalloc_runtime sg flags caps bytes mm
    | .buffer => .error .panicMem
  .ok (r.1, { r.2 with heap_trace_updated := true })

/-- Embedding of the heap-retry loop of `_balloc_unlocked`: scan the buffer
array from position `i` for a capability match, try `alloc_heap_buffer`
there, and on failure continue from the heap after the match. -/
def ballocLoop (sg : Nat → Nat → Nat) (flags caps bytes alignment : Nat)
    (buffer : List MmHeap) (i : Nat) : Nat → Except AllocErr (Nat × List MmHeap)
  | 0 => .ok (0, buffer)
  | fuel + 1 =>
    match get_heap_from_caps (buffer.drop i) caps with
    | none => .ok (0, buffer)
    | some k => do
      let j := i + k
      let r ← alloc_heap_buffer sg (buffer.getD j default) flags caps bytes alignment
      let buffer' := buffer.set j r.2
      if r.1 ≠ 0 then .ok (r.1, buffer')
      else ballocLoop sg flags caps bytes alignment buffer' (j + 1) fuel

/-- Embedding of `_balloc_unlocked`: allocate a (possibly multi-block) buffer
from the first matching buffer heap, retrying subsequent matching heaps on
failure. -/
def ballocUnlocked (sg : Nat → Nat → Nat) (flags caps bytes alignment : Nat) (mm : Mm) :
    Except AllocErr (Nat × Mm) := do
  let r ← ballocLoop sg flags caps bytes alignment mm.buffer 0 (mm.buffer.length + 1)
  .ok (r.1, { mm with buffer := r.2 })

/-- Location of a heap inside the memory map, as found by pointer lookup. -/
inductive HeapLoc where
  | sysRuntime : Nat → HeapLoc
  | runtime : Nat → HeapLoc
  | buffer : Nat → HeapLoc
deriving DecidableEq, Repr

/-- Range test `ptr >= heap->heap && ptr < heap->heap + heap->size` used by
`get_heap_from_ptr` and the system-heap guard of `_rfree_unlocked`. -/
def ptrInHeap (h : MmHeap) (ptr : Nat) : Bool :=
  h.heap ≤ ptr && ptr < h.heap + h.size

/-- Index of the first heap of the array whose address range contains `ptr`. -/
def findHeapIdx (heaps : List MmHeap) (ptr : Nat) : Option Nat :=
  match heaps with
  | [] => none
  | h :: t =>
    if ptrInHeap h ptr then some 0
    else (findHeapIdx t ptr).map (fun k => k + 1)

/-- Embedding of `get_heap_from_ptr`: try the current core's system-runtime
heap, then the runtime array, then the buffer array; `none` on a miss. -/
def get_heap_from_ptr (core : Nat) (mm : Mm) (ptr : Nat) : Option HeapLoc :=
  if ptrInHeap (mm.system_runtime.getD core default) ptr then some (.sysRuntime core)
  else
    match findHeapIdx mm.runtime ptr with
    | some i => some (.runtime i)
    | none =>
      match findHeapIdx mm.buffer ptr with
      | some i => some (.buffer i)
      | none => none

/-- Heap stored at a `HeapLoc` of the memory map. -/
def getHeapAt (mm : Mm) : HeapLoc → MmHeap
  | .sysRuntime i => mm.system_runtime.getD i default
  | .runtime i => mm.runtime.getD i default
  | .buffer i => mm.buffer.getD i default

/-- Write back the heap stored at a `HeapLoc` of the memory map. -/
def setHeapAt (mm : Mm) (h : MmHeap) : HeapLoc → Mm
  | .sysRuntime i => { mm with system_runtime := (mm.system_runtime.set i h) }
  | .runtime i => { mm with runtime := (mm.runtime.set i h) }
  | .buffer i => { mm with buffer := (mm.buffer.set i h) }

/-- Embedding of the block-map search loop of `free_block`: index of the first
map with `ptr < base + block_size * count` (the loop breaks there), `none`
when the loop falls off the end (invalid pointer, trace-logged). -/
def findMapIdx (maps : List BlockMap) (ptr : Nat) : Option Nat :=
  match maps with
  | [] => none
  | m :: t =>
    if ptr < m.base + m.block_size * m.count then some 0
    else (findMapIdx t ptr).map (fun k => k + 1)

/-- Embedding of the per-block release loop of `free_block`: clear `n` headers
from index `i`, incrementing `free_count` and moving `block_size` bytes from
the used to the free counter at each step. -/
def freeRun (bs : Nat) : List BlockHdr → Nat → Nat → Nat → Nat → Nat →
    List BlockHdr × Nat × Nat × Nat
  | bl, fc, used, free, _i, 0 => (bl, fc, used, free)
  | bl, fc, used, free, i, n + 1 =>
    freeRun bs (bl.set i ⟨0, false, 0⟩) (fc + 1) (used - bs) (free + bs) (i + 1) n

/-- Pointer after the unalignment reversal of `free_block`: when the header
at the landing block stores a non-null saved pointer different from `ptr`,
the free targets that saved run base instead. -/
def fimPtr1 (m : BlockMap) (ptr : Nat) : Nat :=
  let hdr0 := m.block.getD ((ptr - m.base) / m.block_size) default
  if hdr0.unaligned_ptr ≠ ptr ∧ hdr0.unaligned_ptr ≠ 0 then hdr0.unaligned_ptr else ptr

/-- Index of the first block of the run being freed, computed from the
resolved pointer. -/
def fimBlock (m : BlockMap) (ptr : Nat) : Nat := (fimPtr1 m ptr - m.base) / m.block_size

/-- Run length read from the first block's header (`hdr->size`). -/
def fimSize (m : BlockMap) (ptr : Nat) : Nat := (m.block.getD (fimBlock m ptr) default).size

/-- New `first_free` after the free: moved down to the freed start when that
is lower or when the map had been full (`heap_is_full` repair). -/
def fimFF (m : BlockMap) (ptr : Nat) : Nat :=
  if fimBlock m ptr < m.first_free ∨ m.free_count = 0 then fimBlock m ptr else m.first_free

/-- Embedding of the body of `free_block` once the owning block map is known:
recover the unaligned pointer from the header, panic if the resolved pointer
is not an exact block base, release the `hdr->size` blocks of the run, and
repair `first_free` (also when the map had been full). -/
def free_in_map (m : BlockMap) (info : HeapInfo) (ptr : Nat) :
    Except AllocErr (BlockMap × HeapInfo) :=
  if m.base + m.block_size * fimBlock m ptr ≠ fimPtr1 m ptr then .error .panicMem
  else
    let r := freeRun m.block_size m.block m.free_count info.used info.free
      (fimBlock m ptr) (fimSize m ptr)
    .ok ({ m with block := r.1, free_count := r.2.1, first_free := fimFF m ptr },
         { used := r.2.2.1, free := r.2.2.2 })

/-- Embedding of `free_block` restricted to the owning heap: find the map the
pointer belongs to and release the run there; an invalid pointer is a
trace-logged no-op. -/
def free_in_heap (heap : MmHeap) (ptr : Nat) : Except AllocErr MmHeap :=
  match findMapIdx heap.map ptr with
  | none => .ok heap
  | some i => do
    let r ← free_in_map (heap.map.getD i default) heap.info ptr
    .ok { heap with map := (heap.map.set i r.1), info := r.2 }

/-- Embedding of `free_block`: look the owning heap up by address range; a
miss is a trace-logged no-op. -/
def free_block (core : Nat) (mm : Mm) (ptr : Nat) : Except AllocErr Mm :=
  match get_heap_from_ptr core mm ptr with
  | none => .ok mm
  | some loc => do
    let h ← free_in_heap (getHeapAt mm loc) ptr
    .ok (setHeapAt mm h loc)

/-- Embedding of `_rfree_unlocked`: `NULL` is a no-op; the pointer is first
translated by the platform hook `prep` (`platform_rfree_prepare`); a pointer
inside the current core's system heap is a panic; otherwise the block is
freed and the trace-dirty flag raised. -/
def rfreeUnlocked (prep : Nat → Nat) (core : Nat) (mm : Mm) (ptr : Nat) :
    Except AllocErr Mm :=
  if ptr = 0 then .ok mm
  else
    let ptr := prep ptr
    let cpu_heap := mm.system.getD core default
    if cpu_heap.heap ≤ ptr ∧ ptr < cpu_heap.heap + cpu_heap.size then .error .panicMem
    else do
      let mm1 ← free_block core mm ptr
      .ok { mm1 with heap_trace_updated := true }

/-- Embedding of `rrealloc` on the allocator state (the spinlock around the
body is treated in the locking model): a zero-byte request returns `NULL` at
once; otherwise allocate, copy (`memcpy_s` moves user bytes and does not
change allocator state), and free the old pointer only when the new
allocation succeeded. -/
def rrealloc (sg : Nat → Nat → Nat) (prep : Nat → Nat) (core : Nat) (mm : Mm)
    (ptr : Nat) (zone : MemZone) (flags caps bytes : Nat) :
    Except AllocErr (Nat × Mm) :=
  if bytes = 0 then .ok (0, mm)
  else do
    let r ← mallocUnlocked sg core zone flags caps bytes mm
    let mm2 ← if r.1 ≠ 0 then rfreeUnlocked prep core r.2 ptr else .ok r.2
    .ok (r.1, mm2)

/-- Embedding of `rbrealloc_align` on the allocator state: like `rrealloc`
but allocating through the aligned buffer path. -/
def rbrealloc_align (sg : Nat → Nat → Nat) (prep : Nat → Nat) (core : Nat) (mm : Mm)
    (ptr : Nat) (flags caps bytes alignment : Nat) :
    Except AllocErr (Nat × Mm) :=
  if bytes = 0 then .ok (0, mm)
  else do
    let r ← ballocUnlocked sg flags caps bytes alignment mm
    let mm2 ← if r.1 ≠ 0 then rfreeUnlocked prep core r.2 ptr else .ok r.2
    .ok (r.1, mm2)

/-- Events of the locking model: acquiring or releasing the global `MemMap`
spinlock (`spin_lock_irq` / `spin_unlock_irq`), and an access — a read or
mutation of allocator state or of the returned memory, as performed by the
statement(s) named in each trace definition. -/
inductive LockEvt where
  | acquire : LockEvt
  | release : LockEvt
  | access : LockEvt
deriving DecidableEq, Repr

/-- Predicate on event traces (with the current lock-held state): every
access happens while the lock is held. -/
def wellLockedFrom : Bool → List LockEvt → Bool
  | _, [] => true
  | held, e :: t =>
    match e with
    | .acquire => wellLockedFrom true t
    | .release => wellLockedFrom false t
    | .access => held && wellLockedFrom held t

/-- A trace holds the lock around every access, starting unlocked. -/
def wellLocked (t : List LockEvt) : Bool := wellLockedFrom false t

/-- Event trace of `rmalloc`: lock, the `_malloc_unlocked` body (allocator
state accesses), unlock. -/
def rmalloc_events : List LockEvt := [.acquire, .access, .release]

/-- Event trace of `rzalloc` (`alloc_zeroed`): a call to `rmalloc` followed —
after `rmalloc` has already released the lock — by `bzero` on the returned
memory when the allocation succeeded (`hit`). -/
def rzalloc_events (hit : Bool) : List LockEvt :=
  rmalloc_events ++ (if hit then [.access] else [])

/-- Event trace of `rzalloc_core_sys` (`alloc_zeroed_core_sys`): lock, the
`rmalloc_sys` body, the conditional `bzero` of the returned memory, unlock. -/
def rzalloc_core_sys_events (hit : Bool) : List LockEvt :=
  [.acquire, .access] ++ (if hit then [.access] else []) ++ [.release]

/-- Event trace of `rballoc_align` (`alloc_buffer_aligned`): lock, the
`_balloc_unlocked` body, unlock. -/
def rballoc_align_events : List LockEvt := [.acquire, .access, .release]

/-- Event trace of `rfree` (`free`): lock, the `_rfree_unlocked` body,
unlock. -/
def rfree_events : List LockEvt := [.acquire, .access, .release]

/-- Event trace of `rrealloc` (`realloc`): a zero-byte request returns before
the lock is taken and touches nothing; otherwise lock, allocate, conditional
`memcpy_s` into the new memory (when the allocation succeeded and the old
pointer is non-null), conditional free of the old pointer, unlock. -/
def rrealloc_events (zeroBytes hit oldNonNull : Bool) : List LockEvt :=
  if zeroBytes then []
  else
    [.acquire, .access] ++ (if hit && oldNonNull then [.access] else []) ++
      (if hit then [.access] else []) ++ [.release]

/-- Event trace of `rbrealloc_align` (`realloc_buffer_aligned`): same shape
as `rrealloc`. -/
def rbrealloc_align_events (zeroBytes hit oldNonNull : Bool) : List LockEvt :=
  if zeroBytes then []
  else
    [.acquire, .access] ++ (if hit && oldNonNull then [.access] else []) ++
      (if hit then [.access] else []) ++ [.release]

/-- Event trace of `free_heap` on its non-panicking path: the function resets
`cpu_heap->info.used` and `cpu_heap->info.free` without acquiring the MemMap
spinlock anywhere in its body. -/
def free_heap_events : List LockEvt := [.access]

/-- Number of headers with `used = false` — the value `free_count` is meant
to track. -/
def countFree : List BlockHdr → Nat
  | [] => 0
  | h :: t => (if h.used then 0 else 1) + countFree t

/-- Block-map invariant as the checked claim words it: `first_free ∈ [0,
count]` and, whenever `first_free < count`, the header at `first_free` is
free. -/
def claimedInv (m : BlockMap) : Prop :=
  m.first_free ≤ m.count ∧
  (m.first_free < m.count → (m.block.getD m.first_free default).used = false)

/-- Block-map invariant the code actually maintains: the header array has
`count` entries, `first_free ≤ count`, `free_count` counts the free headers,
every header below `first_free` is used and — only when the map is not full —
`first_free` points at a free header.  After `alloc_block` hands out the last
free block, `first_free` keeps its stale value (the code does not move it to
the `count` sentinel); `free_block` repairs it through its `heap_is_full`
test. -/
def MapInv (m : BlockMap) : Prop :=
  m.count = m.block.length ∧
  m.first_free ≤ m.count ∧
  m.free_count = countFree m.block ∧
  (∀ i, i < m.first_free → (m.block.getD i default).used = true) ∧
  (m.free_count ≠ 0 →
    m.first_free < m.count ∧ (m.block.getD m.first_free default).used = false)

instance (m : BlockMap) : Decidable (MapInv m) := by
  unfold MapInv
  infer_instance

instance (m : BlockMap) : Decidable (claimedInv m) := by
  unfold claimedInv
  infer_instance

instance {ε α : Type} [DecidableEq ε] [DecidableEq α] : DecidableEq (Except ε α) :=
  fun x y =>
    match x, y with
    | .ok a, .ok b =>
      if h : a = b then isTrue (by rw [h])
      else isFalse (fun hc => h (Except.ok.inj hc))
    | .error a, .error b =>
      if h : a = b then isTrue (by rw [h])
      else isFalse (fun hc => h (Except.error.inj hc))
    | .ok _, .error _ => isFalse (fun hc => Except.noConfusion hc)
    | .error _, .ok _ => isFalse (fun hc => Except.noConfusion hc)

/-- Identity shared-memory translation, usable because the scenarios below
pass `flags = 0` so the hook is never consulted. -/
def sgId : Nat → Nat → Nat := fun a _ => a

/-- Identity free-prepare hook for the concrete scenarios. -/
def prepId : Nat → Nat := fun a => a

/-- Heap of the concrete buffer scenario: a single block map with
`block_size = 64`, `count = 4`, base `4096` (aligned), freshly initialized. -/
def c3Map : BlockMap :=
  ⟨64, 4, 4096, 0, 4, [⟨0, false, 0⟩, ⟨0, false, 0⟩, ⟨0, false, 0⟩, ⟨0, false, 0⟩]⟩

/-- Buffer heap holding `c3Map`, capabilities `1`, 256 bytes. -/
def c3Heap : MmHeap := ⟨4096, 256, 1, [c3Map], ⟨0, 256⟩⟩

/-- Memory map of the scenario: empty per-core heaps away from the pointer
range, and `c3Heap` as the only buffer heap. -/
def c3Mm : Mm := ⟨[⟨0, 0, 0, [], ⟨0, 0⟩⟩], [⟨0, 0, 0, [], ⟨0, 0⟩⟩], [], [c3Heap], false⟩

/-- State after `alloc_buffer_aligned(0, 1, 200, 8)` on the scenario heap. -/
def c3Mm1 : Mm := ((ballocUnlocked sgId 0 1 200 8 c3Mm).toOption.getD (0, c3Mm)).2

/-- State after freeing the returned pointer again. -/
def c3Mm2 : Mm := (rfreeUnlocked prepId 0 c3Mm1 4096).toOption.getD c3Mm1

/-- Claim C3: on a fresh heap with one `64 × 4` block map,
`alloc_buffer_aligned(0, caps, 200, 8)` (which spans all four blocks) returns
the heap base; afterwards all four headers are used and `free_count = 0`; a
further allocation from this heap returns `NULL`; and freeing the returned
pointer restores `free_count = 4`. -/
theorem claim_C3_scenario :
    ballocUnlocked sgId 0 1 200 8 c3Mm = .ok (4096, c3Mm1) ∧
    c3Heap.heap = 4096 ∧
    ((c3Mm1.buffer.getD 0 default).map.getD 0 default).block.all (fun h => h.used) = true ∧
    ((c3Mm1.buffer.getD 0 default).map.getD 0 default).free_count = 0 ∧
    (ballocUnlocked sgId 0 1 200 8 c3Mm1).map Prod.fst = .ok 0 ∧
    rfreeUnlocked prepId 0 c3Mm1 4096 = .ok c3Mm2 ∧
    ((c3Mm2.buffer.getD 0 default).map.getD 0 default).free_count = 4 := by
  decide

/-- Claim C8: `rmalloc` with the `Buffer` zone — the only zone value besides
`System`, `SystemRuntime` and `Runtime` — falls into the `default` branch of
`_malloc_unlocked` and panics with the memory panic code for every `flags`,
`caps`, `bytes` and allocator state, instead of returning an address or
`NULL`. -/
theorem claim_C8_buffer_zone_panics (sg : Nat → Nat → Nat) (core flags caps bytes : Nat)
    (mm : Mm) :
    mallocUnlocked sg core .buffer flags caps bytes mm = .error .panicMem := rfl

/-- Claim C10: a zero-byte `rrealloc` or `rbrealloc_align` returns `NULL`
immediately — before the lock is even taken — and leaves the entire allocator
state unchanged, so the old allocation is not freed. -/
theorem claim_C10_zero_byte_realloc (sg : Nat → Nat → Nat) (prep : Nat → Nat)
    (core : Nat) (mm : Mm) (ptr : Nat) (zone : MemZone) (flags caps alignment : Nat) :
    rrealloc sg prep core mm ptr zone flags caps 0 = .ok (0, mm) ∧
    rbrealloc_align sg prep core mm ptr flags caps 0 alignment = .ok (0, mm) :=
  ⟨rfl, rfl⟩

/-- Claim C7: freeing any non-null pointer that, after the platform
free-prepare translation, lies inside the current core's system heap range
panics with the memory panic code instead of freeing. -/
theorem claim_C7_free_system_ptr_panics (prep : Nat → Nat) (core : Nat) (mm : Mm)
    (ptr : Nat) (h0 : ptr ≠ 0)
    (hlo : (mm.system.getD core default).heap ≤ prep ptr)
    (hhi : prep ptr < (mm.system.getD core default).heap + (mm.system.getD core default).size) :
    rfreeUnlocked prep core mm ptr = .error .panicMem := by
  unfold rfreeUnlocked
  rw [if_neg h0, if_pos ⟨hlo, hhi⟩]

/-- Witness for claim C7 at a concrete state: system heap `[100, 150)`,
freeing the untranslated pointer `120`. -/
theorem claim_C7_witness :
    rfreeUnlocked prepId 0 ⟨[⟨100, 50, 0, [], ⟨0, 0⟩⟩], [], [], [], false⟩ 120 =
      .error .panicMem :=
  claim_C7_free_system_ptr_panics prepId 0 _ 120 (by decide) (by decide) (by decide)

/-- Counterexample to claim C9 as stated: `free_heap` resets the per-core
system heap counters without acquiring the MemMap spinlock anywhere in its
body, so its trace accesses allocator state while the lock is not held. -/
theorem claim_C9_counterexample : wellLocked free_heap_events = false := rfl

/-- Claim C9, amended: `rmalloc`, `rballoc_align`, `rfree`, `rrealloc`,
`rbrealloc_align` and `rzalloc_core_sys` hold the global spinlock around
every allocator-state and returned-memory access for the entire operation;
`rzalloc`, however, zeroes the returned memory only after its inner `rmalloc`
has already released the lock, and `free_heap` resets the system-heap
counters without taking the lock at all. -/
theorem claim_C9_amended_locking :
    wellLocked rmalloc_events = true ∧
    wellLocked rballoc_align_events = true ∧
    wellLocked rfree_events = true ∧
    (∀ z h o, wellLocked (rrealloc_events z h o) = true) ∧
    (∀ z h o, wellLocked (rbrealloc_align_events z h o) = true) ∧
    (∀ h, wellLocked (rzalloc_core_sys_events h) = true) ∧
    (∀ h, wellLocked (rzalloc_events h) = !h) ∧
    wellLocked free_heap_events = false := by
  decide

/-- Heap for the counterexample to claim C1: one map with a single free
block, `first_free = 0`. -/
def c1Heap : MmHeap := ⟨4096, 64, 1, [⟨64, 1, 4096, 0, 1, [⟨0, false, 0⟩]⟩], ⟨0, 64⟩⟩

/-- Counterexample to claim C1 as stated: allocating the last free block of a
map through `alloc_block` leaves `first_free` at its stale value (here 0, a
used header), not at the `count` sentinel, because the linear scan assigns
`first_free` only when it finds a free header.  The claimed invariant holds
before the call and fails after it. -/
theorem claim_C1_counterexample :
    claimedInv (c1Heap.map.getD 0 default) ∧
    (c1Heap.map.getD 0 default).free_count ≠ 0 ∧
    ¬ claimedInv (((alloc_block c1Heap 0 0 0).2).map.getD 0 default) ∧
    (((alloc_block c1Heap 0 0 0).2).map.getD 0 default).first_free ≠
      (((alloc_block c1Heap 0 0 0).2).map.getD 0 default).count := by
  decide

/-- Helper for claim C6: with `alignment = 0`, the first inspected map of the
single-block loop of `alloc_heap_buffer` evaluates the unguarded
`(base + block_size * first_free) % alignment` with a zero divisor. -/
theorem ahbSingle_alignment_zero (heap : MmHeap) (caps bytes i fuel : Nat) (m : BlockMap)
    (hm : heap.map.get? i = some m) :
    ahbSingle heap caps bytes 0 i (fuel + 1) = .error .divByZero := by
  unfold ahbSingle
  rw [hm]
  rfl

/-- Heap for the witness of claim C6. -/
def c6Heap : MmHeap := ⟨8192, 64, 1, [⟨64, 1, 8192, 0, 1, [⟨0, false, 0⟩]⟩], ⟨0, 64⟩⟩

/-- Claim C6: the power-of-two guard `(alignment & (alignment - 1)) != 0`
accepts `alignment = 0` (the `uint32_t` subtraction wraps, and `0 & 0xffffffff
= 0`); with `alignment = 0` evaluation in `alloc_heap_buffer` then reaches the
expression `(map->base + map->block_size * map->first_free) % alignment` with
a zero divisor, which is not guarded by a non-zero check — unlike the
corresponding modulo in `get_ptr_from_heap`, whose `alignment &&` guard keeps
that function total for `alignment = 0`. -/
theorem claim_C6_alignment_zero_div (sg : Nat → Nat → Nat) (heap : MmHeap)
    (flags caps bytes : Nat) (hne : heap.map ≠ []) :
    pow2_guard_fails 0 = false ∧
    alloc_heap_buffer sg heap flags caps bytes 0 = .error .divByZero ∧
    (∀ (heap2 : MmHeap) (f c b : Nat), ∃ r, get_ptr_from_heap sg heap2 f c b 0 = .ok r) := by
  refine ⟨rfl, ?_, ?_⟩
  · obtain ⟨m, t, hmap⟩ : ∃ m t, heap.map = m :: t := by
      cases hm : heap.map with
      | nil => exact absurd hm hne
      | cons m t => exact ⟨m, t, rfl⟩
    have hget : heap.map.get? 0 = some m := by rw [hmap]; rfl
    have hlen : heap.map.length = t.length + 1 := by rw [hmap]; rfl
    unfold alloc_heap_buffer
    rw [if_neg (by decide), hlen, ahbSingle_alignment_zero heap caps bytes 0 t.length m hget]
    rfl
  · intro heap2 f c b
    unfold get_ptr_from_heap
    rw [if_neg (by decide)]
    exact ⟨_, rfl⟩

/-- Witness for claim C6 at a concrete one-map heap. -/
theorem claim_C6_witness :
    pow2_guard_fails 0 = false ∧
    alloc_heap_buffer sgId c6Heap 0 0 8 0 = .error .divByZero ∧
    (∃ r, get_ptr_from_heap sgId c6Heap 0 0 8 0 = .ok r) :=
  ⟨(claim_C6_alignment_zero_div sgId c6Heap 0 0 8 (by decide)).1,
   (claim_C6_alignment_zero_div sgId c6Heap 0 0 8 (by decide)).2.1,
   (claim_C6_alignment_zero_div sgId c6Heap 0 0 8 (by decide)).2.2 c6Heap 0 0 8⟩

/-- Binding an `Except` value into a pure result is its `map`. -/
theorem except_bind_pure_eq_map {ε α β : Type} (x : Except ε α) (f : α → β) :
    (do let r ← x; Except.ok (f r)) = x.map f := by
  cases x <;> rfl

/-- Specification of `get_heap_from_caps` when it finds a heap: the returned
index is in range, that heap's capability mask covers the request, and every
earlier heap's does not. -/
theorem get_heap_from_caps_some (heaps : List MmHeap) (caps i : Nat)
    (h : get_heap_from_caps heaps caps = some i) :
    i < heaps.length ∧ (heaps.getD i default).caps &&& caps = caps ∧
      ∀ j, j < i → (heaps.getD j default).caps &&& caps ≠ caps := by
  induction heaps generalizing i with
  | nil => exact absurd h (by simp [get_heap_from_caps])
  | cons hd t ih =>
    by_cases hm : hd.caps &&& caps = caps
    · have : some 0 = some i := by
        rw [← h]
        simp [get_heap_from_caps, hm]
      obtain rfl : i = 0 := (Option.some.inj this).symm ▸ rfl
      refine ⟨Nat.succ_pos _, by simpa using hm, ?_⟩
      intro j hj
      exact absurd hj (Nat.not_lt_zero j)
    · have h' : (get_heap_from_caps t caps).map (fun k => k + 1) = some i := by
        rw [← h]
        simp [get_heap_from_caps, hm]
      obtain ⟨k, hk, rfl⟩ := Option.map_eq_some'.mp h'
      obtain ⟨hkl, hkm, hkmin⟩ := ih k hk
      refine ⟨Nat.succ_lt_succ hkl, by simpa using hkm, ?_⟩
      intro j hj
      cases j with
      | zero => simpa using hm
      | succ j' =>
        have : j' < k := Nat.lt_of_succ_lt_succ hj
        simpa using hkmin j' this

/-- Specification of `get_heap_from_caps` when it finds nothing: no heap in
the array covers the requested capabilities. -/
theorem get_heap_from_caps_none (heaps : List MmHeap) (caps : Nat)
    (h : get_heap_from_caps heaps caps = none) :
    ∀ hp ∈ heaps, hp.caps &&& caps ≠ caps := by
  induction heaps with
  | nil => intro hp hmem; cases hmem
  | cons hd t ih =>
    intro hp hmem
    by_cases hm : hd.caps &&& caps = caps
    · exact absurd h (by simp [get_heap_from_caps, hm])
    · have h' : get_heap_from_caps t caps = none := by
        have := h
        simp only [get_heap_from_caps, if_neg hm] at this
        exact Option.map_eq_none'.mp this
      rcases List.mem_cons.mp hmem with rfl | hmem'
      · exact hm
      · exact ih h' hp hmem'

/-- Claim C5: `rmalloc` with the `Runtime` zone serves the request from the
first heap of `runtime[]`, in declaration order, whose capability mask covers
the request; when no runtime heap matches it falls through to `buffer[]`
under the same first-match rule; when neither array has a matching heap it
returns `NULL` with the state unchanged. -/
theorem claim_C5_runtime_selection (sg : Nat → Nat → Nat) (mm : Mm)
    (flags caps bytes : Nat) :
    (∀ i, get_heap_from_caps mm.runtime caps = some i →
      i < mm.runtime.length ∧
      (mm.runtime.getD i default).caps &&& caps = caps ∧
      (∀ j, j < i → (mm.runtime.getD j default).caps &&& caps ≠ caps) ∧
      rmalloc_runtime sg flags caps bytes mm =
        (get_ptr_from_heap sg (mm.runtime.getD i default) flags caps bytes
          PLATFORM_DCACHE_ALIGN).map
          (fun r => (r.1, { mm with runtime := (mm.runtime.set i r.2) }))) ∧
    (get_heap_from_caps mm.runtime caps = none →
      (∀ hp ∈ mm.runtime, hp.caps &&& caps ≠ caps) ∧
      (∀ i, get_heap_from_caps mm.buffer caps = some i →
        i < mm.buffer.length ∧
        (mm.buffer.getD i default).caps &&& caps = caps ∧
        (∀ j, j < i → (mm.buffer.getD j default).caps &&& caps ≠ caps) ∧
        rmalloc_runtime sg flags caps bytes mm =
          (get_ptr_from_heap sg (mm.buffer.getD i default) flags caps bytes
            PLATFORM_DCACHE_ALIGN).map
            (fun r => (r.1, { mm with buffer := (mm.buffer.set i r.2) }))) ∧
      (get_heap_from_caps mm.buffer caps = none →
        (∀ hp ∈ mm.buffer, hp.caps &&& caps ≠ caps) ∧
        rmalloc_runtime sg flags caps bytes mm = .ok (0, mm))) := by
  constructor
  · intro i hi
    obtain ⟨hlt, hmatch, hmin⟩ := get_heap_from_caps_some mm.runtime caps i hi
    refine ⟨hlt, hmatch, hmin, ?_⟩
    unfold rmalloc_runtime
    rw [hi]
    exact except_bind_pure_eq_map _ _
  · intro hnone
    refine ⟨get_heap_from_caps_none mm.runtime caps hnone, ?_, ?_⟩
    · intro i hi
      obtain ⟨hlt, hmatch, hmin⟩ := get_heap_from_caps_some mm.buffer caps i hi
      refine ⟨hlt, hmatch, hmin, ?_⟩
      unfold rmalloc_runtime
      rw [hnone, hi]
      exact except_bind_pure_eq_map _ _
    · intro hbn
      refine ⟨get_heap_from_caps_none mm.buffer caps hbn, ?_⟩
      unfold rmalloc_runtime
      rw [hnone, hbn]

/-- Memory map whose first runtime heap matches the request (caps 1). -/
def c5MmA : Mm := ⟨[], [], [⟨4096, 64, 3, [], ⟨0, 64⟩⟩], [], false⟩

/-- Memory map with no matching runtime heap and a second buffer heap
matching the request. -/
def c5MmB : Mm :=
  ⟨[], [], [⟨4096, 64, 0, [], ⟨0, 64⟩⟩],
   [⟨8192, 64, 0, [], ⟨0, 64⟩⟩, ⟨16384, 64, 3, [], ⟨0, 64⟩⟩], false⟩

/-- Memory map where no heap of either array matches the request. -/
def c5MmC : Mm := ⟨[], [], [⟨4096, 64, 0, [], ⟨0, 64⟩⟩], [⟨8192, 64, 0, [], ⟨0, 64⟩⟩], false⟩

/-- Witness for claim C5, hitting all three branches at concrete states. -/
theorem claim_C5_witness :
    (rmalloc_runtime sgId 0 1 8 c5MmA =
      (get_ptr_from_heap sgId (c5MmA.runtime.getD 0 default) 0 1 8
        PLATFORM_DCACHE_ALIGN).map
        (fun r => (r.1, { c5MmA with runtime := (c5MmA.runtime.set 0 r.2) }))) ∧
    (rmalloc_runtime sgId 0 1 8 c5MmB =
      (get_ptr_from_heap sgId (c5MmB.buffer.getD 1 default) 0 1 8
        PLATFORM_DCACHE_ALIGN).map
        (fun r => (r.1, { c5MmB with buffer := (c5MmB.buffer.set 1 r.2) }))) ∧
    rmalloc_runtime sgId 0 1 8 c5MmC = .ok (0, c5MmC) :=
  ⟨((claim_C5_runtime_selection sgId c5MmA 0 1 8).1 0 (by decide)).2.2.2,
   ((((claim_C5_runtime_selection sgId c5MmB 0 1 8).2 (by decide)).2.1) 1 (by decide)).2.2.2,
   (((claim_C5_runtime_selection sgId c5MmC 0 1 8).2 (by decide)).2.2 (by decide)).2⟩

/-- Writing at an index and reading the same index back gives the written
value (index in range). -/
theorem getD_set_same {α : Type} : ∀ (l : List α) (i : Nat) (a d : α),
    i < l.length → (l.set i a).getD i d = a
  | [], i, _, _, h => absurd h (Nat.not_lt_zero i)
  | _ :: _, 0, _, _, _ => rfl
  | _ :: t, i + 1, a, d, h => getD_set_same t i a d (Nat.lt_of_succ_lt_succ h)

/-- Writing at an index leaves reads at other indices unchanged. -/
theorem getD_set_other {α : Type} : ∀ (l : List α) (i j : Nat) (a d : α),
    i ≠ j → (l.set i a).getD j d = l.getD j d
  | [], _, _, _, _, _ => rfl
  | _ :: _, 0, 0, _, _, h => absurd rfl h
  | _ :: _, 0, j + 1, _, _, _ => by simp [List.getD_cons_succ]
  | _ :: _, i + 1, 0, _, _, _ => rfl
  | _ :: t, i + 1, j + 1, a, d, h => by
    simpa [List.getD_cons_succ] using
      getD_set_other t i j a d (fun hc => h (by rw [hc]))

/-- Writing back the value read at an index is the identity. -/
theorem set_getD_self {α : Type} : ∀ (l : List α) (i : Nat) (d : α),
    l.set i (l.getD i d) = l
  | [], _, _ => rfl
  | _ :: _, 0, _ => rfl
  | hd :: t, i + 1, d => by
    show hd :: t.set i (t.getD i d) = hd :: t
    rw [set_getD_self t i d]

/-- Aligning can only move a pointer up. -/
theorem align_ptr_ge (alignment ptr : Nat) : ptr ≤ align_ptr alignment ptr :=
  Nat.le_add_right _ _

/-- Block maps with positive bases hand out positive (non-`NULL`) pointers:
`alloc_block` returns at least the map base. -/
theorem alloc_block_ptr_pos (heap : MmHeap) (level caps alignment : Nat)
    (hb : 0 < (heap.map.getD level default).base) :
    (alloc_block heap level caps alignment).1 ≠ 0 := by
  intro hc
  have h1 : (heap.map.getD level default).base ≤ (alloc_block heap level caps alignment).1 := by
    show (heap.map.getD level default).base ≤
      align_ptr alignment (abRaw (heap.map.getD level default))
    exact Nat.le_trans (Nat.le_add_right _ _) (align_ptr_ge _ _)
  rw [hc] at h1
  exact Nat.not_lt.mpr h1 hb

/-- Evaluation of `alloc_cont_blocks` on the failure path: no state change. -/
theorem alloc_cont_blocks_fail (heap : MmHeap) (level caps bytes alignment : Nat)
    (h : contNeeded (heap.map.getD level default) bytes > (heap.map.getD level default).count ∨
      (contScanRes (heap.map.getD level default) bytes).2 <
        contNeeded (heap.map.getD level default) bytes) :
    alloc_cont_blocks heap level caps bytes alignment = (0, heap) := by
  show (if _ then ((0 : Nat), heap) else _) = (0, heap)
  rw [if_pos h]

/-- Evaluation of `alloc_cont_blocks` on the success path. -/
theorem alloc_cont_blocks_succ (heap : MmHeap) (level caps bytes alignment : Nat)
    (h : ¬(contNeeded (heap.map.getD level default) bytes >
          (heap.map.getD level default).count ∨
        (contScanRes (heap.map.getD level default) bytes).2 <
          contNeeded (heap.map.getD level default) bytes)) :
    alloc_cont_blocks heap level caps bytes alignment =
      (align_ptr alignment (contRaw (heap.map.getD level default) bytes),
       { heap with
         map := (heap.map.set level (contMap (heap.map.getD level default) bytes)),
         info := { used := heap.info.used +
                     contNeeded (heap.map.getD level default) bytes *
                       (heap.map.getD level default).block_size,
                   free := heap.info.free -
                     contNeeded (heap.map.getD level default) bytes *
                       (heap.map.getD level default).block_size } }) := by
  show (if _ then _ else _) = _
  rw [if_neg h]

/-- A `NULL` result of `alloc_cont_blocks` on a map with a positive base
implies the failure path was taken, so the heap is unchanged. -/
theorem alloc_cont_blocks_zero (heap : MmHeap) (level caps bytes alignment : Nat)
    (hb : 0 < (heap.map.getD level default).base)
    (hz : (alloc_cont_blocks heap level caps bytes alignment).1 = 0) :
    (alloc_cont_blocks heap level caps bytes alignment).2 = heap := by
  by_cases h : contNeeded (heap.map.getD level default) bytes >
      (heap.map.getD level default).count ∨
    (contScanRes (heap.map.getD level default) bytes).2 <
      contNeeded (heap.map.getD level default) bytes
  · rw [alloc_cont_blocks_fail heap level caps bytes alignment h]
  · rw [alloc_cont_blocks_succ heap level caps bytes alignment h] at hz
    have hz' : align_ptr alignment (contRaw (heap.map.getD level default) bytes) = 0 := hz
    have h1 : (heap.map.getD level default).base ≤
        align_ptr alignment (contRaw (heap.map.getD level default) bytes) :=
      Nat.le_trans (Nat.le_add_right _ _) (align_ptr_ge _ _)
    rw [hz'] at h1
    exact absurd hb (Nat.not_lt.mpr h1)

/-- Reading through `get?` determines `getD`. -/
theorem getD_of_get? {α : Type} [Inhabited α] (l : List α) (i : Nat) (a : α)
    (h : l.get? i = some a) : l.getD i default = a := by
  simp [List.getD_eq_getElem?_getD, ← List.get?_eq_getElem?, h]

/-- All block-map bases and the heap base of a heap are positive (no valid
address is `NULL`). -/
def heapBasesPos (h : MmHeap) : Prop := 0 < h.heap ∧ ∀ m ∈ h.map, 0 < m.base

/-- All heaps of the memory map have positive bases. -/
def mmBasesPos (mm : Mm) : Prop :=
  (∀ h ∈ mm.system, heapBasesPos h) ∧ (∀ h ∈ mm.system_runtime, heapBasesPos h) ∧
  (∀ h ∈ mm.runtime, heapBasesPos h) ∧ (∀ h ∈ mm.buffer, heapBasesPos h)

/-- The shared-memory translation maps valid (non-`NULL`) pointers to valid
pointers. -/
def sgPos (sg : Nat → Nat → Nat) : Prop := ∀ a b, a ≠ 0 → sg a b ≠ 0

/-- The four heap arrays of two memory-map states agree (the trace-dirty flag
may differ). -/
def heapsEq (a b : Mm) : Prop :=
  a.system = b.system ∧ a.system_runtime = b.system_runtime ∧
  a.runtime = b.runtime ∧ a.buffer = b.buffer

instance (m : Mm) (m2 : Mm) : Decidable (heapsEq m m2) := by
  unfold heapsEq
  infer_instance

instance (h : MmHeap) : Decidable (heapBasesPos h) := by
  unfold heapBasesPos
  infer_instance

instance (mm : Mm) : Decidable (mmBasesPos mm) := by
  unfold mmBasesPos
  infer_instance

/-- A `NULL` result of the map-scan loop of `get_ptr_from_heap` leaves the
heap unchanged (positive bases exclude a `NULL` pointer from `alloc_block`). -/
theorem gptrLoop_zero (heap : MmHeap) (caps bytes alignment : Nat)
    (hpos : ∀ m ∈ heap.map, 0 < m.base) :
    ∀ fuel i, (gptrLoop heap caps bytes alignment i fuel).1 = 0 →
      (gptrLoop heap caps bytes alignment i fuel).2 = heap := by
  intro fuel
  induction fuel with
  | zero => intro i _; rfl
  | succ fuel ih =>
    intro i h
    cases hm : heap.map.get? i with
    | none => simp only [gptrLoop, hm]
    | some map =>
      simp only [gptrLoop, hm] at h ⊢
      by_cases h1 : map.block_size <
          (if alignment ≠ 0 ∧ (map.base + map.block_size * map.first_free) % alignment ≠ 0
           then bytes + alignment else bytes)
      · rw [if_pos h1] at h ⊢
        exact ih (i + 1) h
      · rw [if_neg h1] at h ⊢
        by_cases h2 : map.free_count = 0
        · rw [if_pos h2] at h ⊢
          exact ih (i + 1) h
        · rw [if_neg h2] at h ⊢
          have hb : 0 < (heap.map.getD i default).base := by
            rw [getD_of_get? heap.map i map hm]
            exact hpos map (List.get?_mem hm)
          exact absurd h (alloc_block_ptr_pos heap i caps alignment hb)

/-- A `NULL` result of `get_ptr_from_heap` leaves the heap unchanged. -/
theorem get_ptr_from_heap_zero (sg : Nat → Nat → Nat) (heap : MmHeap)
    (flags caps bytes alignment : Nat) (hsg : sgPos sg)
    (hpos : ∀ m ∈ heap.map, 0 < m.base) (h' : MmHeap)
    (h : get_ptr_from_heap sg heap flags caps bytes alignment = .ok (0, h')) :
    h' = heap := by
  unfold get_ptr_from_heap at h
  by_cases hg : pow2_guard_fails alignment
  · rw [if_pos hg] at h
    exact absurd h (by intro hc; cases hc)
  · rw [if_neg hg] at h
    have h2 := Except.ok.inj h
    have hfst : (if (gptrLoop heap caps bytes alignment 0 heap.map.length).1 ≠ 0 ∧
        flags &&& SOF_MEM_FLAG_SHARED ≠ 0 then
          sg (gptrLoop heap caps bytes alignment 0 heap.map.length).1 bytes
        else (gptrLoop heap caps bytes alignment 0 heap.map.length).1) = 0 :=
      congrArg Prod.fst h2
    have hsnd : (gptrLoop heap caps bytes alignment 0 heap.map.length).2 = h' :=
      congrArg Prod.snd h2
    by_cases hc : (gptrLoop heap caps bytes alignment 0 heap.map.length).1 ≠ 0 ∧
        flags &&& SOF_MEM_FLAG_SHARED ≠ 0
    · rw [if_pos hc] at hfst
      exact absurd hfst (hsg _ bytes hc.1)
    · rw [if_neg hc] at hfst
      rw [← hsnd]
      exact gptrLoop_zero heap caps bytes alignment hpos heap.map.length 0 hfst

/-- Rewriting a bind whose first component is known to succeed. -/
theorem except_bind_ok {ε α β : Type} (x : Except ε α) (f : α → Except ε β) (a : α)
    (h : x = .ok a) : (do let r ← x; f r) = f a := by
  rw [h]; rfl

/-- Rewriting a bind whose first component is known to fail. -/
theorem except_bind_error {ε α β : Type} (x : Except ε α) (f : α → Except ε β) (e : ε)
    (h : x = .error e) : (do let r ← x; f r) = .error e := by
  rw [h]; rfl

/-- Membership of an in-range `getD` read. -/
theorem getD_mem {α : Type} : ∀ (l : List α) (i : Nat) (d : α),
    i < l.length → l.getD i d ∈ l
  | [], i, _, h => absurd h (Nat.not_lt_zero i)
  | a :: _, 0, _, _ => List.mem_cons_self a _
  | _ :: t, i + 1, d, h =>
    List.mem_cons_of_mem _ (getD_mem t i d (Nat.lt_of_succ_lt_succ h))

/-- A `NULL`-returning `rmalloc_sys` leaves the heap arrays unchanged (this
happens only in the degenerate out-of-range-core case; a real system heap
either panics or returns a positive pointer). -/
theorem rmalloc_sys_zero (sg : Nat → Nat → Nat) (flags caps core bytes : Nat) (mm mm' : Mm)
    (hsg : sgPos sg) (hpos : ∀ h ∈ mm.system, heapBasesPos h)
    (h : rmalloc_sys sg flags caps core bytes mm = .ok (0, mm')) : heapsEq mm' mm := by
  unfold heapsEq
  simp only [rmalloc_sys] at h
  split at h
  · exact Except.noConfusion h
  · by_cases hcore : core < mm.system.length
    · have hb : 0 < (mm.system.getD core default).heap :=
        (hpos _ (getD_mem mm.system core default hcore)).1
      split at h
      all_goals split at h
      any_goals exact Except.noConfusion h
      all_goals
        injection Except.ok.inj h with hfst hsnd
      all_goals by_cases hs : flags &&& SOF_MEM_FLAG_SHARED ≠ 0
      all_goals first
        | (rw [if_pos hs] at hfst
           refine absurd hfst (hsg _ _ ?_)
           omega)
        | (rw [if_neg hs] at hfst
           omega)
    · split at h
      all_goals split at h
      any_goals exact Except.noConfusion h
      all_goals
        injection Except.ok.inj h with hfst hsnd
      all_goals rw [← hsnd]
      all_goals
        exact ⟨List.set_eq_of_length_le (Nat.le_of_not_lt hcore), rfl, rfl, rfl⟩

/-- Map bases of the heap selected by an arbitrary index are positive when
all heaps of the array have positive bases (out of range, the default heap
has no maps). -/
theorem getD_heap_bases_pos (heaps : List MmHeap) (i : Nat)
    (hpos : ∀ h ∈ heaps, heapBasesPos h) :
    ∀ m ∈ (heaps.getD i default).map, 0 < m.base := by
  by_cases hi : i < heaps.length
  · exact (hpos _ (getD_mem heaps i default hi)).2
  · rw [List.getD_eq_default heaps default (Nat.le_of_not_lt hi)]
    intro m hm
    cases hm

/-- A `NULL`-returning `rmalloc_sys_runtime` leaves the heap arrays
unchanged. -/
theorem rmalloc_sys_runtime_zero (sg : Nat → Nat → Nat) (flags caps core bytes : Nat)
    (mm mm' : Mm) (hsg : sgPos sg) (hpos : ∀ h ∈ mm.system_runtime, heapBasesPos h)
    (h : rmalloc_sys_runtime sg flags caps core bytes mm = .ok (0, mm')) : heapsEq mm' mm := by
  unfold heapsEq
  simp only [rmalloc_sys_runtime] at h
  split at h
  · exact Except.noConfusion h
  · cases hr : get_ptr_from_heap sg (mm.system_runtime.getD core default) flags caps bytes
        PLATFORM_DCACHE_ALIGN with
    | error e =>
      rw [except_bind_error _ _ e hr] at h
      exact Except.noConfusion h
    | ok r =>
      rw [except_bind_ok _ _ r hr] at h
      injection Except.ok.inj h with hfst hsnd
      have hr' : get_ptr_from_heap sg (mm.system_runtime.getD core default) flags caps bytes
          PLATFORM_DCACHE_ALIGN = .ok (0, r.2) := by
        rw [hr, ← hfst]
      have hunch : r.2 = mm.system_runtime.getD core default :=
        get_ptr_from_heap_zero sg _ flags caps bytes PLATFORM_DCACHE_ALIGN hsg
          (getD_heap_bases_pos mm.system_runtime core hpos) r.2 hr'
      rw [← hsnd, hunch]
      exact ⟨rfl, set_getD_self _ _ _, rfl, rfl⟩

/-- A `NULL`-returning `rmalloc_runtime` leaves the heap arrays unchanged. -/
theorem rmalloc_runtime_zero (sg : Nat → Nat → Nat) (flags caps bytes : Nat)
    (mm mm' : Mm) (hsg : sgPos sg)
    (hposr : ∀ h ∈ mm.runtime, heapBasesPos h) (hposb : ∀ h ∈ mm.buffer, heapBasesPos h)
    (h : rmalloc_runtime sg flags caps bytes mm = .ok (0, mm')) : heapsEq mm' mm := by
  unfold heapsEq
  simp only [rmalloc_runtime] at h
  cases hg : get_heap_from_caps mm.runtime caps with
  | some i =>
    simp only [hg] at h
    cases hr : get_ptr_from_heap sg (mm.runtime.getD i default) flags caps bytes
        PLATFORM_DCACHE_ALIGN with
    | error e =>
      rw [except_bind_error _ _ e hr] at h
      exact Except.noConfusion h
    | ok r =>
      rw [except_bind_ok _ _ r hr] at h
      injection Except.ok.inj h with hfst hsnd
      have hr' : get_ptr_from_heap sg (mm.runtime.getD i default) flags caps bytes
          PLATFORM_DCACHE_ALIGN = .ok (0, r.2) := by
        rw [hr, ← hfst]
      have hunch : r.2 = mm.runtime.getD i default :=
        get_ptr_from_heap_zero sg _ flags caps bytes PLATFORM_DCACHE_ALIGN hsg
          (getD_heap_bases_pos mm.runtime i hposr) r.2 hr'
      rw [← hsnd, hunch]
      exact ⟨rfl, rfl, set_getD_self _ _ _, rfl⟩
  | none =>
    simp only [hg] at h
    cases hb : get_heap_from_caps mm.buffer caps with
    | some i =>
      simp only [hb] at h
      cases hr : get_ptr_from_heap sg (mm.buffer.getD i default) flags caps bytes
          PLATFORM_DCACHE_ALIGN with
      | error e =>
        rw [except_bind_error _ _ e hr] at h
        exact Except.noConfusion h
      | ok r =>
        rw [except_bind_ok _ _ r hr] at h
        injection Except.ok.inj h with hfst hsnd
        have hr' : get_ptr_from_heap sg (mm.buffer.getD i default) flags caps bytes
            PLATFORM_DCACHE_ALIGN = .ok (0, r.2) := by
          rw [hr, ← hfst]
        have hunch : r.2 = mm.buffer.getD i default :=
          get_ptr_from_heap_zero sg _ flags caps bytes PLATFORM_DCACHE_ALIGN hsg
            (getD_heap_bases_pos mm.buffer i hposb) r.2 hr'
        rw [← hsnd, hunch]
        exact ⟨rfl, rfl, rfl, set_getD_self _ _ _⟩
    | none =>
      simp only [hb] at h
      injection Except.ok.inj h with hfst hsnd
      rw [← hsnd]
      exact ⟨rfl, rfl, rfl, rfl⟩

/-- A `NULL`-returning `_malloc_unlocked` leaves all four heap arrays
unchanged: a failed allocation does not touch allocator bookkeeping (only the
trace-dirty flag is raised). -/
theorem mallocUnlocked_zero (sg : Nat → Nat → Nat) (core : Nat) (zone : MemZone)
    (flags caps bytes : Nat) (mm mm1 : Mm) (hsg : sgPos sg) (hpos : mmBasesPos mm)
    (h : mallocUnlocked sg core zone flags caps bytes mm = .ok (0, mm1)) :
    heapsEq mm1 mm := by
  cases zone with
  | sys =>
    simp only [mallocUnlocked] at h
    cases hr : rmalloc_sys sg flags caps core bytes mm with
    | error e =>
      rw [except_bind_error _ _ e hr] at h
      exact Except.noConfusion h
    | ok r =>
      rw [except_bind_ok _ _ r hr] at h
      injection Except.ok.inj h with hfst hsnd
      have heq := rmalloc_sys_zero sg flags caps core bytes mm r.2 hsg hpos.1
        (by rw [hr, ← hfst])
      rw [← hsnd]
      exact ⟨heq.1, heq.2.1, heq.2.2.1, heq.2.2.2⟩
  | sysRuntime =>
    simp only [mallocUnlocked] at h
    cases hr : rmalloc_sys_runtime sg flags caps core bytes mm with
    | error e =>
      rw [except_bind_error _ _ e hr] at h
      exact Except.noConfusion h
    | ok r =>
      rw [except_bind_ok _ _ r hr] at h
      injection Except.ok.inj h with hfst hsnd
      have heq := rmalloc_sys_runtime_zero sg flags caps core bytes mm r.2 hsg hpos.2.1
        (by rw [hr, ← hfst])
      rw [← hsnd]
      exact ⟨heq.1, heq.2.1, heq.2.2.1, heq.2.2.2⟩
  | runtime =>
    simp only [mallocUnlocked] at h
    cases hr : rmalloc_runtime sg flags caps bytes mm with
    | error e =>
      rw [except_bind_error _ _ e hr] at h
      exact Except.noConfusion h
    | ok r =>
      rw [except_bind_ok _ _ r hr] at h
      injection Except.ok.inj h with hfst hsnd
      have heq := rmalloc_runtime_zero sg flags caps bytes mm r.2 hsg hpos.2.2.1 hpos.2.2.2
        (by rw [hr, ← hfst])
      rw [← hsnd]
      exact ⟨heq.1, heq.2.1, heq.2.2.1, heq.2.2.2⟩
  | buffer =>
    simp only [mallocUnlocked] at h
    exact Except.noConfusion h

/-- A `NULL`-returning single-block loop of `alloc_heap_buffer` leaves the
heap unchanged. -/
theorem ahbSingle_zero (heap : MmHeap) (caps bytes alignment : Nat)
    (hpos : ∀ m ∈ heap.map, 0 < m.base) :
    ∀ fuel i r, ahbSingle heap caps bytes alignment i fuel = .ok r → r.1 = 0 →
      r.2 = heap := by
  intro fuel
  induction fuel with
  | zero =>
    intro i r h h0
    rw [Except.ok.inj h.symm]
  | succ fuel ih =>
    intro i r h h0
    cases hm : heap.map.get? i with
    | none =>
      simp only [ahbSingle, hm] at h
      rw [Except.ok.inj h.symm]
    | some map =>
      simp only [ahbSingle, hm] at h
      cases hc : cmod (map.base + map.block_size * map.first_free) alignment with
      | error e =>
        rw [except_bind_error _ _ e hc] at h
        exact Except.noConfusion h
      | ok v =>
        rw [except_bind_ok _ _ v hc] at h
        by_cases hcond : map.block_size ≥ (if v ≠ 0 then bytes + alignment else bytes) ∧
            map.free_count ≠ 0
        · rw [if_pos hcond] at h
          have hb : 0 < (heap.map.getD i default).base := by
            rw [getD_of_get? heap.map i map hm]
            exact hpos map (List.get?_mem hm)
          rw [← Except.ok.inj h] at h0
          exact absurd h0 (alloc_block_ptr_pos heap i caps alignment hb)
        · rw [if_neg hcond] at h
          exact ih (i + 1) r h h0

/-- A `NULL`-returning contiguous fallback loop of `alloc_heap_buffer`
leaves the heap unchanged. -/
theorem ahbCont_zero (caps bytes alignment : Nat) :
    ∀ (n : Nat) (heap : MmHeap), n ≤ heap.map.length → (∀ m ∈ heap.map, 0 < m.base) →
      (ahbCont heap caps bytes alignment n).1 = 0 →
      (ahbCont heap caps bytes alignment n).2 = heap := by
  intro n
  induction n with
  | zero => intro heap _ _ _; rfl
  | succ i ih =>
    intro heap hn hpos h0
    have hb : 0 < (heap.map.getD i default).base := by
      have hi : i < heap.map.length := Nat.lt_of_succ_le hn
      rw [getD_of_get? heap.map i _ (List.get?_eq_get hi)]
      exact hpos _ (List.get_mem heap.map i hi)
    by_cases hcond : heap.size ≥ bytes ∧ (heap.map.getD i default).block_size < bytes
    · simp only [ahbCont, if_pos hcond] at h0 ⊢
      by_cases hr1 : (alloc_cont_blocks heap i caps bytes alignment).1 ≠ 0
      · rw [if_pos hr1] at h0 ⊢
        exact absurd h0 hr1
      · rw [if_neg hr1] at h0 ⊢
        have hz : (alloc_cont_blocks heap i caps bytes alignment).1 = 0 :=
          Nat.eq_zero_of_not_pos (fun hp => hr1 (Nat.pos_iff_ne_zero.mp hp))
        have hunch : (alloc_cont_blocks heap i caps bytes alignment).2 = heap :=
          alloc_cont_blocks_zero heap i caps bytes alignment hb hz
        rw [hunch] at h0 ⊢
        exact ih heap (Nat.le_of_succ_le hn) hpos h0
    · simp only [ahbCont, if_neg hcond] at h0 ⊢
      exact ih heap (Nat.le_of_succ_le hn) hpos h0

/-- A `NULL`-returning `alloc_heap_buffer` leaves the heap unchanged. -/
theorem alloc_heap_buffer_zero (sg : Nat → Nat → Nat) (heap : MmHeap)
    (flags caps bytes alignment : Nat) (h' : MmHeap) (hsg : sgPos sg)
    (hpos : ∀ m ∈ heap.map, 0 < m.base)
    (h : alloc_heap_buffer sg heap flags caps bytes alignment = .ok (0, h')) :
    h' = heap := by
  unfold alloc_heap_buffer at h
  by_cases hg : pow2_guard_fails alignment
  · rw [if_pos hg] at h
    exact Except.noConfusion h
  · rw [if_neg hg] at h
    cases hr0 : ahbSingle heap caps bytes alignment 0 heap.map.length with
    | error e =>
      rw [except_bind_error _ _ e hr0] at h
      exact Except.noConfusion h
    | ok r0 =>
      rw [except_bind_ok _ _ r0 hr0] at h
      injection Except.ok.inj h with hfst hsnd
      by_cases hr01 : r0.1 = 0
      · rw [if_pos hr01] at hfst hsnd
        have hsingle : r0.2 = heap :=
          ahbSingle_zero heap caps bytes alignment hpos heap.map.length 0 r0 hr0 hr01
        rw [hsingle] at hfst hsnd
        have hc1 : (ahbCont heap caps (bytes + alignment) alignment heap.map.length).1 = 0 := by
          by_cases hs : (ahbCont heap caps (bytes + alignment) alignment heap.map.length).1 ≠ 0 ∧
              flags &&& SOF_MEM_FLAG_SHARED ≠ 0
          · rw [if_pos hs] at hfst
            exact absurd hfst (hsg _ _ hs.1)
          · rw [if_neg hs] at hfst
            exact hfst
        have := ahbCont_zero caps (bytes + alignment) alignment heap.map.length heap
          (Nat.le_refl _) hpos hc1
        rw [← hsnd, this]
      · rw [if_neg hr01] at hfst hsnd
        have hc1 : r0.1 = 0 := by
          by_cases hs : r0.1 ≠ 0 ∧ flags &&& SOF_MEM_FLAG_SHARED ≠ 0
          · rw [if_pos hs] at hfst
            exact absurd hfst (hsg _ _ hs.1)
          · rw [if_neg hs] at hfst
            exact hfst
        exact absurd hc1 hr01

/-- A `NULL`-returning buffer-heap retry loop leaves the buffer array
unchanged. -/
theorem ballocLoop_zero (sg : Nat → Nat → Nat) (flags caps bytes alignment : Nat)
    (hsg : sgPos sg) :
    ∀ (fuel : Nat) (buffer : List MmHeap) (i : Nat) (buf' : List MmHeap),
      (∀ h ∈ buffer, heapBasesPos h) →
      ballocLoop sg flags caps bytes alignment buffer i fuel = .ok (0, buf') →
      buf' = buffer := by
  intro fuel
  induction fuel with
  | zero =>
    intro buffer i buf' _ h
    injection Except.ok.inj h with h1 h2
    rw [← h2]
  | succ fuel ih =>
    intro buffer i buf' hpos h
    cases hg : get_heap_from_caps (buffer.drop i) caps with
    | none =>
      simp only [ballocLoop, hg] at h
      injection Except.ok.inj h with h1 h2
      rw [← h2]
    | some k =>
      simp only [ballocLoop, hg] at h
      cases hr : alloc_heap_buffer sg (buffer.getD (i + k) default) flags caps bytes
          alignment with
      | error e =>
        rw [except_bind_error _ _ e hr] at h
        exact Except.noConfusion h
      | ok r =>
        rw [except_bind_ok _ _ r hr] at h
        by_cases hr1 : r.1 ≠ 0
        · rw [if_pos hr1] at h
          injection Except.ok.inj h with h1 h2
          exact absurd h1 hr1
        · rw [if_neg hr1] at h
          have hz : r.1 = 0 := Nat.eq_zero_of_not_pos
            (fun hp => hr1 (Nat.pos_iff_ne_zero.mp hp))
          have hr' : alloc_heap_buffer sg (buffer.getD (i + k) default) flags caps bytes
              alignment = .ok (0, r.2) := by
            rw [hr, ← hz]
          have hunch : r.2 = buffer.getD (i + k) default :=
            alloc_heap_buffer_zero sg _ flags caps bytes alignment r.2 hsg
              (getD_heap_bases_pos buffer (i + k) hpos) hr'
          rw [hunch, set_getD_self] at h
          exact ih buffer (i + k + 1) buf' hpos h

/-- A `NULL`-returning `_balloc_unlocked` leaves all four heap arrays
unchanged. -/
theorem ballocUnlocked_zero (sg : Nat → Nat → Nat) (flags caps bytes alignment : Nat)
    (mm mm1 : Mm) (hsg : sgPos sg) (hpos : ∀ h ∈ mm.buffer, heapBasesPos h)
    (h : ballocUnlocked sg flags caps bytes alignment mm = .ok (0, mm1)) :
    heapsEq mm1 mm := by
  unfold heapsEq
  simp only [ballocUnlocked] at h
  cases hr : ballocLoop sg flags caps bytes alignment mm.buffer 0 (mm.buffer.length + 1) with
  | error e =>
    rw [except_bind_error _ _ e hr] at h
    exact Except.noConfusion h
  | ok r =>
    rw [except_bind_ok _ _ r hr] at h
    injection Except.ok.inj h with hfst hsnd
    have hr' : ballocLoop sg flags caps bytes alignment mm.buffer 0 (mm.buffer.length + 1) =
        .ok (0, r.2) := by
      rw [hr, ← hfst]
    have hunch : r.2 = mm.buffer :=
      ballocLoop_zero sg flags caps bytes alignment hsg _ mm.buffer 0 r.2 hpos hr'
    rw [← hsnd, hunch]
    exact ⟨rfl, rfl, rfl, rfl⟩

/-- Claim C4: for `rrealloc` and `rbrealloc_align` with a non-zero request,
if the new allocation fails (`NULL`), the call returns `NULL`, the old
pointer is not freed and every heap array — in particular the old pointer's
allocation — is untouched; if the new allocation succeeds, the old pointer is
freed (`_rfree_unlocked` runs on it under the same lock). -/
theorem claim_C4_realloc_failure_preserves (sg : Nat → Nat → Nat) (prep : Nat → Nat)
    (core : Nat) (mm : Mm) (ptr : Nat) (zone : MemZone) (flags caps bytes alignment : Nat)
    (hsg : sgPos sg) (hpos : mmBasesPos mm) (hbytes : bytes ≠ 0) :
    (∀ mm1, mallocUnlocked sg core zone flags caps bytes mm = .ok (0, mm1) →
      rrealloc sg prep core mm ptr zone flags caps bytes = .ok (0, mm1) ∧ heapsEq mm1 mm) ∧
    (∀ p mm1, p ≠ 0 → mallocUnlocked sg core zone flags caps bytes mm = .ok (p, mm1) →
      rrealloc sg prep core mm ptr zone flags caps bytes =
        (rfreeUnlocked prep core mm1 ptr).map (fun mm2 => (p, mm2))) ∧
    (∀ mm1, ballocUnlocked sg flags caps bytes alignment mm = .ok (0, mm1) →
      rbrealloc_align sg prep core mm ptr flags caps bytes alignment = .ok (0, mm1) ∧
        heapsEq mm1 mm) ∧
    (∀ p mm1, p ≠ 0 → ballocUnlocked sg flags caps bytes alignment mm = .ok (p, mm1) →
      rbrealloc_align sg prep core mm ptr flags caps bytes alignment =
        (rfreeUnlocked prep core mm1 ptr).map (fun mm2 => (p, mm2))) := by
  refine ⟨?_, ?_, ?_, ?_⟩
  · intro mm1 h
    refine ⟨?_, mallocUnlocked_zero sg core zone flags caps bytes mm mm1 hsg hpos h⟩
    unfold rrealloc
    rw [if_neg hbytes, except_bind_ok _ _ (0, mm1) h]
    rfl
  · intro p mm1 hp h
    unfold rrealloc
    rw [if_neg hbytes, except_bind_ok _ _ (p, mm1) h]
    have hp' : (p, mm1).1 ≠ 0 := hp
    rw [if_pos hp']
    exact except_bind_pure_eq_map _ _
  · intro mm1 h
    refine ⟨?_, ballocUnlocked_zero sg flags caps bytes alignment mm mm1 hsg hpos.2.2.2 h⟩
    unfold rbrealloc_align
    rw [if_neg hbytes, except_bind_ok _ _ (0, mm1) h]
    rfl
  · intro p mm1 hp h
    unfold rbrealloc_align
    rw [if_neg hbytes, except_bind_ok _ _ (p, mm1) h]
    have hp' : (p, mm1).1 ≠ 0 := hp
    rw [if_pos hp']
    exact except_bind_pure_eq_map _ _

/-- Empty memory map: any allocation request fails. -/
def c4MmF : Mm := ⟨[], [], [], [], false⟩

/-- Memory map state returned by the failed runtime allocation. -/
def c4Mm1F : Mm := ⟨[], [], [], [], true⟩

/-- One-block heap serving the succeeding allocations of the C4 witness. -/
def c4Heap : MmHeap := ⟨4096, 64, 1, [⟨64, 1, 4096, 0, 1, [⟨0, false, 0⟩]⟩], ⟨0, 64⟩⟩

/-- Memory map whose runtime allocation succeeds. -/
def c4MmS : Mm := ⟨[], [], [c4Heap], [], false⟩

/-- Result of the succeeding runtime allocation. -/
def c4r : Nat × Mm := (mallocUnlocked sgId 0 .runtime 0 1 8 c4MmS).toOption.getD (0, c4MmS)

/-- Memory map whose buffer allocation succeeds. -/
def c4MmBS : Mm := ⟨[], [], [], [c4Heap], false⟩

/-- Result of the succeeding buffer allocation. -/
def c4rb : Nat × Mm := (ballocUnlocked sgId 0 1 8 8 c4MmBS).toOption.getD (0, c4MmBS)

/-- Witness for claim C4, hitting the failure and success branches of both
realloc entry points at concrete states. -/
theorem claim_C4_witness :
    (rrealloc sgId prepId 0 c4MmF 0 .runtime 0 1 8 = .ok (0, c4Mm1F) ∧
      heapsEq c4Mm1F c4MmF) ∧
    (rrealloc sgId prepId 0 c4MmS 0 .runtime 0 1 8 =
      (rfreeUnlocked prepId 0 c4r.2 0).map (fun mm2 => (c4r.1, mm2))) ∧
    (rbrealloc_align sgId prepId 0 c4MmF 0 0 1 8 8 = .ok (0, c4MmF) ∧
      heapsEq c4MmF c4MmF) ∧
    (rbrealloc_align sgId prepId 0 c4MmBS 0 0 1 8 8 =
      (rfreeUnlocked prepId 0 c4rb.2 0).map (fun mm2 => (c4rb.1, mm2))) :=
  ⟨(claim_C4_realloc_failure_preserves sgId prepId 0 c4MmF 0 .runtime 0 1 8 8
      (fun _ _ h => h) (by decide) (by decide)).1 c4Mm1F (by decide),
   (claim_C4_realloc_failure_preserves sgId prepId 0 c4MmS 0 .runtime 0 1 8 8
      (fun _ _ h => h) (by decide) (by decide)).2.1 c4r.1 c4r.2 (by decide) (by decide),
   (claim_C4_realloc_failure_preserves sgId prepId 0 c4MmF 0 .runtime 0 1 8 8
      (fun _ _ h => h) (by decide) (by decide)).2.2.1 c4MmF (by decide),
   (claim_C4_realloc_failure_preserves sgId prepId 0 c4MmBS 0 .runtime 0 1 8 8
      (fun _ _ h => h) (by decide) (by decide)).2.2.2 c4rb.1 c4rb.2 (by decide) (by decide)⟩

/-- Setting an index to a header with the same used flag does not change the
number of free headers. -/
theorem countFree_set_same_flag : ∀ (bl : List BlockHdr) (i : Nat) (hdr : BlockHdr),
    hdr.used = (bl.getD i default).used → countFree (bl.set i hdr) = countFree bl
  | [], _, _, _ => rfl
  | _ :: t, 0, hdr, h => by
    simp only [List.set, countFree, List.getD_cons_zero] at h ⊢
    rw [h]
  | a :: t, i + 1, hdr, h => by
    simp only [List.set, countFree, List.getD_cons_succ] at h ⊢
    rw [countFree_set_same_flag t i hdr h]

/-- Marking a free in-range header used decrements the number of free
headers, which is in particular positive. -/
theorem countFree_set_used : ∀ (bl : List BlockHdr) (i : Nat) (hdr : BlockHdr),
    i < bl.length → (bl.getD i default).used = false → hdr.used = true →
    countFree (bl.set i hdr) = countFree bl - 1 ∧ 1 ≤ countFree bl
  | [], i, _, h, _, _ => absurd h (Nat.not_lt_zero i)
  | a :: t, 0, hdr, _, hfree, hu => by
    simp only [List.set, countFree, List.getD_cons_zero] at hfree ⊢
    rw [hfree, hu]
    show 0 + countFree t = 1 + countFree t - 1 ∧ 1 ≤ 1 + countFree t
    omega
  | a :: t, i + 1, hdr, h, hfree, hu => by
    simp only [List.set, countFree, List.getD_cons_succ] at hfree ⊢
    obtain ⟨h1, h2⟩ := countFree_set_used t i hdr (Nat.lt_of_succ_lt_succ h) hfree hu
    rw [h1]
    cases ha : a.used
    · show 1 + (countFree t - 1) = 1 + countFree t - 1 ∧ 1 ≤ 1 + countFree t
      omega
    · show 0 + (countFree t - 1) = 0 + countFree t - 1 ∧ 1 ≤ 0 + countFree t
      omega

/-- Freeing a used in-range header increments the number of free headers. -/
theorem countFree_set_free : ∀ (bl : List BlockHdr) (i : Nat) (hdr : BlockHdr),
    i < bl.length → (bl.getD i default).used = true → hdr.used = false →
    countFree (bl.set i hdr) = countFree bl + 1
  | [], i, _, h, _, _ => absurd h (Nat.not_lt_zero i)
  | a :: t, 0, hdr, _, hused, hu => by
    simp only [List.set, countFree, List.getD_cons_zero] at hused ⊢
    rw [hused, hu]
    show 1 + countFree t = 0 + countFree t + 1
    omega
  | a :: t, i + 1, hdr, h, hused, hu => by
    simp only [List.set, countFree, List.getD_cons_succ] at hused ⊢
    rw [countFree_set_free t i hdr (Nat.lt_of_succ_lt_succ h) hused hu]
    omega

/-- A header array whose headers are all used has no free header to count. -/
theorem countFree_eq_zero_of_all_used : ∀ (bl : List BlockHdr),
    (∀ i, i < bl.length → (bl.getD i default).used = true) → countFree bl = 0
  | [], _ => rfl
  | a :: t, h => by
    have h0 : a.used = true := h 0 (Nat.succ_pos _)
    simp only [countFree, h0, if_pos]
    rw [countFree_eq_zero_of_all_used t (fun i hi => h (i + 1) (Nat.succ_lt_succ hi))]

/-- Specification of the free-header scan when it finds an index: the result
is the first free header at or after the start. -/
theorem findFreeAux_some (bl : List BlockHdr) :
    ∀ (fuel i j : Nat), findFreeAux bl i fuel = some j →
      i ≤ j ∧ j < bl.length ∧ (bl.getD j default).used = false ∧
        ∀ k, i ≤ k → k < j → (bl.getD k default).used = true := by
  intro fuel
  induction fuel with
  | zero => intro i j h; exact Option.noConfusion h
  | succ fuel ih =>
    intro i j h
    cases hm : bl.get? i with
    | none =>
      simp only [findFreeAux, hm] at h
      exact Option.noConfusion h
    | some hd =>
      simp only [findFreeAux, hm] at h
      have hlt : i < bl.length := by
        by_contra hc
        rw [List.get?_eq_none.mpr (Nat.le_of_not_lt hc)] at hm
        exact Option.noConfusion hm
      have hgd : bl.getD i default = hd := getD_of_get? bl i hd hm
      by_cases hu : hd.used
      · rw [if_pos hu] at h
        obtain ⟨h1, h2, h3, h4⟩ := ih (i + 1) j h
        refine ⟨Nat.le_of_succ_le h1, h2, h3, ?_⟩
        intro k hk1 hk2
        rcases Nat.eq_or_lt_of_le hk1 with rfl | hk1'
        · rw [hgd]; exact hu
        · exact h4 k hk1' hk2
      · rw [if_neg hu] at h
        obtain rfl := Option.some.inj h
        refine ⟨Nat.le_refl _, hlt, ?_, ?_⟩
        · rw [hgd]; exact Bool.not_eq_true _ ▸ (Bool.eq_false_iff.mpr hu)
        · intro k hk1 hk2
          exact absurd (Nat.lt_of_le_of_lt hk1 hk2) (Nat.lt_irrefl _)

/-- Specification of the free-header scan when it finds nothing: every
header in the scanned window is used. -/
theorem findFreeAux_none (bl : List BlockHdr) :
    ∀ (fuel i : Nat), findFreeAux bl i fuel = none →
      ∀ k, i ≤ k → k < i + fuel → k < bl.length → (bl.getD k default).used = true := by
  intro fuel
  induction fuel with
  | zero =>
    intro i _ k hk1 hk2 _
    exact absurd (Nat.lt_of_le_of_lt hk1 hk2) (Nat.lt_irrefl _)
  | succ fuel ih =>
    intro i h k hk1 hk2 hk3
    cases hm : bl.get? i with
    | none =>
      rw [List.get?_eq_none] at hm
      exact absurd (Nat.lt_of_le_of_lt hm (Nat.lt_of_le_of_lt hk1 hk3))
        (by omega)
    | some hd =>
      simp only [findFreeAux, hm] at h
      have hgd : bl.getD i default = hd := getD_of_get? bl i hd hm
      by_cases hu : hd.used
      · rw [if_pos hu] at h
        rcases Nat.eq_or_lt_of_le hk1 with rfl | hk1'
        · rw [hgd]; exact hu
        · exact ih (i + 1) h k hk1' (by omega) hk3
      · rw [if_neg hu] at h
        exact Option.noConfusion h

/-- Preservation of the maintained block-map invariant by `alloc_block`,
under the caller guard `free_count != 0` that both `get_ptr_from_heap` and
`alloc_heap_buffer` check before calling it. -/
theorem abMap_inv (m : BlockMap) (hInv : MapInv m) (hfc : m.free_count ≠ 0) :
    MapInv (abMap m) := by
  obtain ⟨hlen, hle, hcount, hbelow, hfree⟩ := hInv
  obtain ⟨hfflt, hffused⟩ := hfree hfc
  have hfflen : m.first_free < m.block.length := hlen ▸ hfflt
  have habl : (abBlocks m).length = m.block.length := List.length_set m.block _ _
  obtain ⟨hcf, hcf1⟩ := countFree_set_used m.block m.first_free
    { size := 1, used := true, unaligned_ptr := abRaw m } hfflen hffused rfl
  have hcf2 : countFree (abBlocks m) = m.free_count - 1 := by
    rw [hcount]; exact hcf
  have hbelow2 : ∀ i, i ≤ m.first_free → ((abBlocks m).getD i default).used = true := by
    intro i hi
    simp only [abBlocks]
    rcases Nat.eq_or_lt_of_le hi with rfl | hi2
    · rw [getD_set_same m.block m.first_free _ default hfflen]
    · rw [getD_set_other m.block m.first_free i _ default (by omega)]
      exact hbelow i hi2
  refine ⟨?_, ?_, ?_, ?_, ?_⟩
  · show m.count = (abBlocks m).length
    rw [habl, hlen]
  · show abFF m ≤ m.count
    unfold abFF
    cases hf : findFreeAux (abBlocks m) m.first_free (m.count - m.first_free) with
    | none => exact hle
    | some j =>
      obtain ⟨h1, h2, h3, h4⟩ := findFreeAux_some (abBlocks m) _ _ _ hf
      show j ≤ m.count
      rw [hlen]
      exact Nat.le_of_lt (habl ▸ h2)
  · show m.free_count - 1 = countFree (abBlocks m)
    rw [hcf2]
  · show ∀ i, i < abFF m → ((abBlocks m).getD i default).used = true
    unfold abFF
    cases hf : findFreeAux (abBlocks m) m.first_free (m.count - m.first_free) with
    | none =>
      intro i hi
      exact hbelow2 i (Nat.le_of_lt hi)
    | some j =>
      obtain ⟨h1, h2, h3, h4⟩ := findFreeAux_some (abBlocks m) _ _ _ hf
      intro i hi
      by_cases hif : i ≤ m.first_free
      · exact hbelow2 i hif
      · exact h4 i (by omega) hi
  · show (abMap m).free_count ≠ 0 →
      abFF m < m.count ∧ ((abBlocks m).getD (abFF m) default).used = false
    intro hfc2
    have hfc3 : m.free_count - 1 ≠ 0 := hfc2
    unfold abFF
    cases hf : findFreeAux (abBlocks m) m.first_free (m.count - m.first_free) with
    | none =>
      exfalso
      have hall : ∀ i, i < (abBlocks m).length → ((abBlocks m).getD i default).used = true := by
        intro i hi
        by_cases hif : i ≤ m.first_free
        · exact hbelow2 i hif
        · refine findFreeAux_none (abBlocks m) _ _ hf i (by omega) ?_ hi
          rw [habl, ← hlen] at hi
          omega
      have hz : countFree (abBlocks m) = 0 := countFree_eq_zero_of_all_used _ hall
      rw [hcf2] at hz
      exact hfc3 hz
    | some j =>
      obtain ⟨h1, h2, h3, h4⟩ := findFreeAux_some (abBlocks m) _ _ _ hf
      exact ⟨hlen ▸ (habl ▸ h2), h3⟩

/-- Exit shape of the consecutive-run scan: when the accumulated run is long
enough, `start` points at a free run of `needed` blocks inside the array. -/
theorem contScanExit (bl : List BlockHdr) (needed ff0 current start remaining : Nat)
    (hneed : needed ≠ 0) (hcur : current ≤ bl.length) (hrc : remaining ≤ current)
    (hrun : ∀ k, current - remaining ≤ k → k < current →
      k < bl.length ∧ (bl.getD k default).used = false)
    (hst : remaining ≠ 0 → start = current - remaining)
    (hffs : ff0 ≤ start) (hr : needed ≤ remaining) :
    ff0 ≤ start ∧ start + needed ≤ bl.length ∧
      ∀ k, start ≤ k → k < start + needed → (bl.getD k default).used = false := by
  have hrem0 : remaining ≠ 0 := by omega
  have hst2 := hst hrem0
  refine ⟨hffs, by omega, ?_⟩
  intro k hk1 hk2
  exact (hrun k (by omega) (by omega)).2

/-- Specification of the consecutive-run scan of `alloc_cont_blocks`: when it
reports at least `needed` consecutive free blocks, the returned `start` is at
or after the original `first_free` and heads a free run of `needed` in-range
blocks. -/
theorem contScanAux_spec (bl : List BlockHdr) (needed ff0 : Nat) (hneed : needed ≠ 0) :
    ∀ (fuel current start remaining : Nat),
      current ≤ bl.length → remaining ≤ current →
      (∀ k, current - remaining ≤ k → k < current →
        k < bl.length ∧ (bl.getD k default).used = false) →
      (remaining ≠ 0 → start = current - remaining) →
      ff0 ≤ start → ff0 ≤ current →
      needed ≤ (contScanAux bl needed fuel current start remaining).2 →
      ff0 ≤ (contScanAux bl needed fuel current start remaining).1 ∧
      (contScanAux bl needed fuel current start remaining).1 + needed ≤ bl.length ∧
      ∀ k, (contScanAux bl needed fuel current start remaining).1 ≤ k →
        k < (contScanAux bl needed fuel current start remaining).1 + needed →
        (bl.getD k default).used = false := by
  intro fuel
  induction fuel with
  | zero =>
    intro current start remaining hcur hrc hrun hst hffs hffc hres
    exact contScanExit bl needed ff0 current start remaining hneed hcur hrc hrun hst hffs hres
  | succ fuel ih =>
    intro current start remaining hcur hrc hrun hst hffs hffc hres
    by_cases hr : remaining ≥ needed
    · simp only [contScanAux, if_pos hr] at hres ⊢
      exact contScanExit bl needed ff0 current start remaining hneed hcur hrc hrun hst hffs hr
    · simp only [contScanAux, if_neg hr] at hres ⊢
      cases hm : bl.get? current with
      | none =>
        simp only [hm] at hres ⊢
        exact absurd hres hr
      | some h =>
        simp only [hm] at hres ⊢
        have hlt : current < bl.length := by
          by_contra hc
          rw [List.get?_eq_none.mpr (Nat.le_of_not_lt hc)] at hm
          exact Option.noConfusion hm
        have hgd : bl.getD current default = h := getD_of_get? bl current h hm
        by_cases hu : h.used = true
        · rw [if_pos hu] at hres ⊢
          refine ih (current + 1) start 0 (by omega) (by omega) ?_ ?_ hffs (by omega) hres
          · intro k hk1 hk2
            exact absurd hk2 (by omega)
          · intro hz
            exact absurd rfl hz
        · rw [if_neg hu] at hres ⊢
          have hfreecur : (bl.getD current default).used = false := by
            rw [hgd]
            exact Bool.eq_false_iff.mpr hu
          by_cases hz : remaining = 0
          · rw [if_pos hz] at hres ⊢
            refine ih (current + 1) current 1 (by omega) (by omega) ?_ ?_ hffc (by omega) hres
            · intro k hk1 hk2
              have hkc : k = current := by omega
              rw [hkc]
              exact ⟨hlt, hfreecur⟩
            · intro _
              omega
          · rw [if_neg hz] at hres ⊢
            refine ih (current + 1) start (remaining + 1) (by omega) (by omega) ?_ ?_ hffs
              (by omega) hres
            · intro k hk1 hk2
              by_cases hkc : k = current
              · rw [hkc]
                exact ⟨hlt, hfreecur⟩
              · exact hrun k (by omega) (by omega)
            · intro _
              have := hst hz
              omega

/-- Specification of the `first_free` rescan of `alloc_cont_blocks`: within
its window it returns the first index whose header is free, or the window end
(`map->count`) when all are used. -/
theorem ffScanUp_spec (bl : List BlockHdr) :
    ∀ (fuel j : Nat), j + fuel ≤ bl.length →
      j ≤ ffScanUp bl fuel j ∧ ffScanUp bl fuel j ≤ j + fuel ∧
      (∀ k, j ≤ k → k < ffScanUp bl fuel j → (bl.getD k default).used = true) ∧
      (ffScanUp bl fuel j < j + fuel → (bl.getD (ffScanUp bl fuel j) default).used = false) := by
  intro fuel
  induction fuel with
  | zero =>
    intro j _
    refine ⟨Nat.le_refl _, Nat.le_refl _, ?_, ?_⟩
    · intro k hk1 hk2
      exact absurd (Nat.lt_of_le_of_lt hk1 hk2) (by
        show ¬ j < ffScanUp bl 0 j
        show ¬ j < j
        omega)
    · intro hcon
      exact absurd hcon (by
        show ¬ ffScanUp bl 0 j < j + 0
        show ¬ j < j + 0
        omega)
  | succ fuel ih =>
    intro j hj
    have hlt : j < bl.length := by omega
    obtain ⟨h, hm⟩ : ∃ h, bl.get? j = some h := by
      cases hm2 : bl.get? j with
      | none =>
        rw [List.get?_eq_none] at hm2
        omega
      | some h => exact ⟨h, rfl⟩
    have hgd : bl.getD j default = h := getD_of_get? bl j h hm
    simp only [ffScanUp, hm]
    by_cases hu : h.used = true
    · rw [if_pos hu]
      obtain ⟨i1, i2, i3, i4⟩ := ih (j + 1) (by omega)
      refine ⟨by omega, by omega, ?_, ?_⟩
      · intro k hk1 hk2
        rcases Nat.eq_or_lt_of_le hk1 with rfl | hk1'
        · rw [hgd]; exact hu
        · exact i3 k hk1' hk2
      · intro hlt2
        exact i4 (by omega)
    · rw [if_neg hu]
      refine ⟨Nat.le_refl _, by omega, ?_, ?_⟩
      · intro k hk1 hk2
        exact absurd (Nat.lt_of_le_of_lt hk1 hk2) (Nat.lt_irrefl _)
      · intro _
        rw [hgd]
        exact Bool.eq_false_iff.mpr hu

/-- The run-marking loop preserves the header-array length. -/
theorem markRun_length (raw : Nat) : ∀ (n : Nat) (bl : List BlockHdr) (start : Nat),
    (markRun bl raw start n).length = bl.length
  | 0, _, _ => rfl
  | n + 1, bl, start => by
    show (markRun (bl.set start _) raw (start + 1) n).length = bl.length
    rw [markRun_length raw n _ (start + 1), List.length_set]

/-- Pointwise description of the run-marking loop: headers in the run window
get `used = true` and the saved run base, the rest are untouched. -/
theorem markRun_getD (raw : Nat) : ∀ (n : Nat) (bl : List BlockHdr) (start j : Nat),
    start + n ≤ bl.length →
    (markRun bl raw start n).getD j default =
      if start ≤ j ∧ j < start + n then
        { bl.getD j default with used := true, unaligned_ptr := raw }
      else bl.getD j default := by
  intro n
  induction n with
  | zero =>
    intro bl start j _
    rw [if_neg (by omega)]
    rfl
  | succ n ih =>
    intro bl start j hn
    have hsl : start < bl.length := by omega
    show (markRun (bl.set start { bl.getD start default with used := true, unaligned_ptr := raw }) raw (start + 1) n).getD j default = _
    rw [ih (bl.set start _) (start + 1) j (by rw [List.length_set]; omega)]
    by_cases hj : j = start
    · rw [hj, if_neg (by omega), if_pos (by omega)]
      exact getD_set_same bl start _ default hsl
    · by_cases hw : start + 1 ≤ j ∧ j < start + 1 + n
      · rw [if_pos hw, if_pos (by omega)]
        rw [getD_set_other bl start j _ default (fun hc => hj (hc.symm))]
      · rw [if_neg hw, if_neg (by omega)]
        exact getD_set_other bl start j _ default (fun hc => hj (hc.symm))

/-- Marking a free in-range run used removes exactly its blocks from the
free-header count. -/
theorem countFree_markRun (raw : Nat) : ∀ (n : Nat) (bl : List BlockHdr) (start : Nat),
    start + n ≤ bl.length →
    (∀ k, start ≤ k → k < start + n → (bl.getD k default).used = false) →
    countFree (markRun bl raw start n) = countFree bl - n ∧ n ≤ countFree bl := by
  intro n
  induction n with
  | zero =>
    intro bl start _ _
    exact ⟨rfl, Nat.zero_le _⟩
  | succ n ih =>
    intro bl start hn hfree
    have hsl : start < bl.length := by omega
    obtain ⟨hc1, hc2⟩ := countFree_set_used bl start
      { bl.getD start default with used := true, unaligned_ptr := raw } hsl
      (hfree start (Nat.le_refl _) (by omega)) rfl
    show countFree (markRun (bl.set start _) raw (start + 1) n) = _ ∧ _
    obtain ⟨hr1, hr2⟩ := ih (bl.set start { bl.getD start default with used := true, unaligned_ptr := raw }) (start + 1)
      (by rw [List.length_set]; omega)
      (by
        intro k hk1 hk2
        rw [getD_set_other bl start k _ default (by omega)]
        exact hfree k (by omega) (by omega))
    rw [hr1, hc1]
    constructor
    · omega
    · rw [hc1] at hr2
      omega

/-- Preservation of the maintained block-map invariant by a successful
`alloc_cont_blocks` (the guard conditions of the code hold, and the request
needs at least one block, which the caller's `block_size < bytes` check
ensures). -/
theorem contMap_inv (m : BlockMap) (bytes : Nat) (hInv : MapInv m)
    (hneed0 : contNeeded m bytes ≠ 0)
    (hok : ¬(contNeeded m bytes > m.count ∨
      (contScanRes m bytes).2 < contNeeded m bytes)) :
    MapInv (contMap m bytes) := by
  obtain ⟨hlen, hle, hcount, hbelow, hfree⟩ := hInv
  push_neg at hok
  obtain ⟨hcnt, hrem⟩ := hok
  obtain ⟨hstart, hrange, hrunfree⟩ :=
    contScanAux_spec m.block (contNeeded m bytes) m.first_free hneed0
      (m.count - m.first_free) m.first_free m.first_free 0
      (by omega) (Nat.zero_le _)
      (by intro k hk1 hk2; exact absurd hk2 (by omega))
      (fun hz => absurd rfl hz) (Nat.le_refl _) (Nat.le_refl _) hrem
  have hstart : m.first_free ≤ (contScanRes m bytes).1 := hstart
  have hrange : (contScanRes m bytes).1 + contNeeded m bytes ≤ m.block.length := hrange
  have hrunfree : ∀ k, (contScanRes m bytes).1 ≤ k →
      k < (contScanRes m bytes).1 + contNeeded m bytes →
      (m.block.getD k default).used = false := hrunfree
  have hstartlt : (contScanRes m bytes).1 < m.block.length := by omega
  have hbl1len : (contBl1 m bytes).length = m.block.length := List.length_set _ _ _
  have hused1 : ∀ k, ((contBl1 m bytes).getD k default).used =
      (m.block.getD k default).used := by
    intro k
    unfold contBl1
    by_cases hk : k = (contScanRes m bytes).1
    · rw [hk, getD_set_same _ _ _ _ hstartlt]
    · rw [getD_set_other _ _ _ _ _ (fun hc => hk hc.symm)]
  have hcfbl1 : countFree (contBl1 m bytes) = countFree m.block :=
    countFree_set_same_flag m.block _ _ rfl
  have hfree1 : ∀ k, (contScanRes m bytes).1 ≤ k →
      k < (contScanRes m bytes).1 + contNeeded m bytes →
      ((contBl1 m bytes).getD k default).used = false := by
    intro k hk1 hk2
    rw [hused1 k]
    exact hrunfree k hk1 hk2
  obtain ⟨hm1, hm2⟩ := countFree_markRun (contRaw m bytes) (contNeeded m bytes)
    (contBl1 m bytes) (contScanRes m bytes).1 (by omega) hfree1
  have hmlen : (contMarked m bytes).length = m.block.length := by
    unfold contMarked
    rw [markRun_length, hbl1len]
  have hmgetD : ∀ j, (contMarked m bytes).getD j default =
      if (contScanRes m bytes).1 ≤ j ∧
          j < (contScanRes m bytes).1 + contNeeded m bytes then
        { (contBl1 m bytes).getD j default with used := true, unaligned_ptr := contRaw m bytes }
      else (contBl1 m bytes).getD j default := by
    intro j
    exact markRun_getD (contRaw m bytes) (contNeeded m bytes) (contBl1 m bytes)
      (contScanRes m bytes).1 j (by omega)
  have hmused : ∀ j, j < (contScanRes m bytes).1 ∨
      (contScanRes m bytes).1 + contNeeded m bytes ≤ j →
      ((contMarked m bytes).getD j default).used = (m.block.getD j default).used := by
    intro j hj
    rw [hmgetD j, if_neg (by omega)]
    exact hused1 j
  have hmarked : ∀ j, (contScanRes m bytes).1 ≤ j →
      j < (contScanRes m bytes).1 + contNeeded m bytes →
      ((contMarked m bytes).getD j default).used = true := by
    intro j hj1 hj2
    rw [hmgetD j, if_pos ⟨hj1, hj2⟩]
  have hcfm : countFree (contMarked m bytes) = m.free_count - contNeeded m bytes := by
    unfold contMarked
    rw [hm1, hcfbl1, ← hcount]
  refine ⟨?_, ?_, ?_, ?_, ?_⟩
  · show m.count = (contMarked m bytes).length
    rw [hmlen, hlen]
  · show contFF m bytes ≤ m.count
    unfold contFF
    by_cases hffs : m.first_free = (contScanRes m bytes).1
    · rw [if_pos hffs]
      obtain ⟨f1, f2, f3, f4⟩ := ffScanUp_spec (contBl1 m bytes)
        (m.count - ((contScanRes m bytes).1 + contNeeded m bytes))
        ((contScanRes m bytes).1 + contNeeded m bytes) (by omega)
      omega
    · rw [if_neg hffs]
      exact hle
  · show m.free_count - contNeeded m bytes = countFree (contMarked m bytes)
    rw [hcfm]
  · show ∀ i, i < contFF m bytes → ((contMarked m bytes).getD i default).used = true
    unfold contFF
    by_cases hffs : m.first_free = (contScanRes m bytes).1
    · rw [if_pos hffs]
      obtain ⟨f1, f2, f3, f4⟩ := ffScanUp_spec (contBl1 m bytes)
        (m.count - ((contScanRes m bytes).1 + contNeeded m bytes))
        ((contScanRes m bytes).1 + contNeeded m bytes) (by omega)
      intro i hi
      by_cases hi1 : i < (contScanRes m bytes).1
      · rw [hmused i (Or.inl hi1)]
        exact hbelow i (by omega)
      · by_cases hi2 : i < (contScanRes m bytes).1 + contNeeded m bytes
        · exact hmarked i (by omega) hi2
        · rw [hmgetD i, if_neg (by omega)]
          exact f3 i (by omega) hi
    · rw [if_neg hffs]
      intro i hi
      rw [hmused i (Or.inl (by omega))]
      exact hbelow i hi
  · show (contMap m bytes).free_count ≠ 0 →
      contFF m bytes < m.count ∧
        ((contMarked m bytes).getD (contFF m bytes) default).used = false
    intro hfc2
    have hfc3 : m.free_count - contNeeded m bytes ≠ 0 := hfc2
    unfold contFF
    by_cases hffs : m.first_free = (contScanRes m bytes).1
    · rw [if_pos hffs]
      obtain ⟨f1, f2, f3, f4⟩ := ffScanUp_spec (contBl1 m bytes)
        (m.count - ((contScanRes m bytes).1 + contNeeded m bytes))
        ((contScanRes m bytes).1 + contNeeded m bytes) (by omega)
      by_cases hrcnt : ffScanUp (contBl1 m bytes)
          (m.count - ((contScanRes m bytes).1 + contNeeded m bytes))
          ((contScanRes m bytes).1 + contNeeded m bytes) < m.count
      · refine ⟨hrcnt, ?_⟩
        rw [hmgetD _, if_neg (by omega)]
        have := f4 (by omega)
        exact this
      · exfalso
        have hallused : ∀ i, i < (contMarked m bytes).length →
            ((contMarked m bytes).getD i default).used = true := by
          intro i hi
          rw [hmlen, ← hlen] at hi
          by_cases hi1 : i < (contScanRes m bytes).1
          · rw [hmused i (Or.inl hi1)]
            exact hbelow i (by omega)
          · by_cases hi2 : i < (contScanRes m bytes).1 + contNeeded m bytes
            · exact hmarked i (by omega) hi2
            · rw [hmgetD i, if_neg (by omega)]
              exact f3 i (by omega) (by omega)
        have hz := countFree_eq_zero_of_all_used _ hallused
        rw [hcfm] at hz
        exact hfc3 hz
    · rw [if_neg hffs]
      have hffo : m.free_count ≠ 0 := by omega
      obtain ⟨hfflt, hffused⟩ := hfree hffo
      refine ⟨hfflt, ?_⟩
      rw [hmused m.first_free (Or.inl (by omega))]
      exact hffused

/-- The header-clearing part of the block-release loop of `free_block`. -/
def clearRun : List BlockHdr → Nat → Nat → List BlockHdr
  | bl, _i, 0 => bl
  | bl, i, n + 1 => clearRun (bl.set i ⟨0, false, 0⟩) (i + 1) n

/-- Closed form of the block-release loop of `free_block`: headers cleared,
`free_count` up by the run length, `block_size` bytes per block moved from
the used to the free counter. -/
theorem freeRun_eq (bs : Nat) : ∀ (n : Nat) (bl : List BlockHdr) (fc used free i : Nat),
    freeRun bs bl fc used free i n = (clearRun bl i n, fc + n, used - n * bs, free + n * bs) := by
  intro n
  induction n with
  | zero =>
    intro bl fc used free i
    show (bl, fc, used, free) = (clearRun bl i 0, fc + 0, used - 0 * bs, free + 0 * bs)
    rw [Nat.add_zero, Nat.zero_mul, Nat.sub_zero, Nat.add_zero]
    rfl
  | succ n ih =>
    intro bl fc used free i
    show freeRun bs (bl.set i ⟨0, false, 0⟩) (fc + 1) (used - bs) (free + bs) (i + 1) n = _
    rw [ih]
    show (clearRun bl i (n + 1), fc + 1 + n, used - bs - n * bs, free + bs + n * bs) = _
    have e1 : fc + 1 + n = fc + (n + 1) := by omega
    have e2 : used - bs - n * bs = used - (n + 1) * bs := by
      rw [Nat.sub_sub, Nat.succ_mul, Nat.add_comm bs (n * bs)]
    have e3 : free + bs + n * bs = free + (n + 1) * bs := by
      rw [Nat.add_assoc, Nat.add_comm bs (n * bs), ← Nat.succ_mul]
    rw [e1, e2, e3]

/-- The header array length is unchanged by clearing a run. -/
theorem clearRun_length : ∀ (n : Nat) (bl : List BlockHdr) (i : Nat),
    (clearRun bl i n).length = bl.length
  | 0, _, _ => rfl
  | n + 1, bl, i => by
    show (clearRun (bl.set i ⟨0, false, 0⟩) (i + 1) n).length = bl.length
    rw [clearRun_length n _ (i + 1), List.length_set]

/-- Pointwise description of clearing a run: headers in the window are reset
to the all-zero header, the rest are untouched. -/
theorem clearRun_getD : ∀ (n : Nat) (bl : List BlockHdr) (i j : Nat), i + n ≤ bl.length →
    (clearRun bl i n).getD j default =
      if i ≤ j ∧ j < i + n then ⟨0, false, 0⟩ else bl.getD j default := by
  intro n
  induction n with
  | zero =>
    intro bl i j _
    rw [if_neg (by omega)]
    rfl
  | succ n ih =>
    intro bl i j hn
    have hsl : i < bl.length := by omega
    show (clearRun (bl.set i ⟨0, false, 0⟩) (i + 1) n).getD j default = _
    rw [ih (bl.set i ⟨0, false, 0⟩) (i + 1) j (by rw [List.length_set]; omega)]
    by_cases hj : j = i
    · rw [hj, if_neg (by omega), if_pos (by omega)]
      exact getD_set_same bl i _ default hsl
    · by_cases hw : i + 1 ≤ j ∧ j < i + 1 + n
      · rw [if_pos hw, if_pos (by omega)]
      · rw [if_neg hw, if_neg (by omega)]
        exact getD_set_other bl i j _ default (fun hc => hj (hc.symm))

/-- Clearing a used in-range run adds exactly its blocks to the free-header
count. -/
theorem countFree_clearRun : ∀ (n : Nat) (bl : List BlockHdr) (i : Nat), i + n ≤ bl.length →
    (∀ k, i ≤ k → k < i + n → (bl.getD k default).used = true) →
    countFree (clearRun bl i n) = countFree bl + n := by
  intro n
  induction n with
  | zero =>
    intro bl i _ _
    rfl
  | succ n ih =>
    intro bl i hn hused
    have hsl : i < bl.length := by omega
    have hc1 : countFree (bl.set i ⟨0, false, 0⟩) = countFree bl + 1 :=
      countFree_set_free bl i ⟨0, false, 0⟩ hsl (hused i (Nat.le_refl _) (by omega)) rfl
    show countFree (clearRun (bl.set i ⟨0, false, 0⟩) (i + 1) n) = countFree bl + (n + 1)
    rw [ih (bl.set i ⟨0, false, 0⟩) (i + 1)
      (by rw [List.length_set]; omega)
      (by
        intro k hk1 hk2
        rw [getD_set_other bl i k _ default (by omega)]
        exact hused k (by omega) (by omega)), hc1]
    omega

/-- An array with no free header to count has all headers used. -/
theorem countFree_zero_used : ∀ (bl : List BlockHdr), countFree bl = 0 →
    ∀ i, i < bl.length → (bl.getD i default).used = true
  | [], _, i, hi => absurd hi (Nat.not_lt_zero i)
  | a :: t, h, i, hi => by
    have ha : a.used = true := by
      by_contra hc
      have : countFree (a :: t) = 1 + countFree t := by
        show (if a.used = true then 0 else 1) + countFree t = _
        rw [if_neg hc]
      omega
    have ht : countFree t = 0 := by
      have : countFree (a :: t) = 0 + countFree t := by
        show (if a.used = true then 0 else 1) + countFree t = _
        rw [if_pos ha]
      omega
    cases i with
    | zero => exact ha
    | succ i' =>
      rw [List.getD_cons_succ]
      exact countFree_zero_used t ht i' (by simpa using hi)

/-- Evaluation and invariant preservation of the map-level free: for a valid
live run (resolved pointer on a block base, run of used blocks inside the
map), `free_in_map` clears the run, raises `free_count` by the run length,
moves the bytes between the heap counters, repairs `first_free`, and
preserves the maintained block-map invariant. -/
theorem free_in_map_inv (m : BlockMap) (info : HeapInfo) (ptr : Nat) (hInv : MapInv m)
    (hres : m.base + m.block_size * fimBlock m ptr = fimPtr1 m ptr)
    (hsz : 1 ≤ fimSize m ptr)
    (hrange : fimBlock m ptr + fimSize m ptr ≤ m.count)
    (hused : ∀ j, fimBlock m ptr ≤ j → j < fimBlock m ptr + fimSize m ptr →
      (m.block.getD j default).used = true) :
    free_in_map m info ptr =
      .ok ({ m with
             block := clearRun m.block (fimBlock m ptr) (fimSize m ptr),
             free_count := m.free_count + fimSize m ptr,
             first_free := fimFF m ptr },
           { used := info.used - fimSize m ptr * m.block_size,
             free := info.free + fimSize m ptr * m.block_size }) ∧
    MapInv { m with
             block := clearRun m.block (fimBlock m ptr) (fimSize m ptr),
             free_count := m.free_count + fimSize m ptr,
             first_free := fimFF m ptr } := by
  obtain ⟨hlen, hle, hcount, hbelow, hfree⟩ := hInv
  have hblen : fimBlock m ptr + fimSize m ptr ≤ m.block.length := by omega
  constructor
  · unfold free_in_map
    rw [if_neg (fun hc => hc hres), freeRun_eq]
  · have hclen : (clearRun m.block (fimBlock m ptr) (fimSize m ptr)).length =
        m.block.length := clearRun_length _ _ _
    have hcget := fun j => clearRun_getD (fimSize m ptr) m.block (fimBlock m ptr) j hblen
    have hccf : countFree (clearRun m.block (fimBlock m ptr) (fimSize m ptr)) =
        countFree m.block + fimSize m ptr := countFree_clearRun _ _ _ hblen hused
    refine ⟨?_, ?_, ?_, ?_, ?_⟩
    · show m.count = _
      rw [hclen, hlen]
    · show fimFF m ptr ≤ m.count
      unfold fimFF
      by_cases hcond : fimBlock m ptr < m.first_free ∨ m.free_count = 0
      · rw [if_pos hcond]
        omega
      · rw [if_neg hcond]
        exact hle
    · show m.free_count + fimSize m ptr = _
      rw [hccf, hcount]
    · show ∀ i, i < fimFF m ptr → _
      unfold fimFF
      by_cases hcond : fimBlock m ptr < m.first_free ∨ m.free_count = 0
      · rw [if_pos hcond]
        intro i hi
        rw [hcget i, if_neg (by omega)]
        rcases hcond with hblt | hfc0
        · exact hbelow i (by omega)
        · have hz : countFree m.block = 0 := by rw [← hcount]; exact hfc0
          exact countFree_zero_used m.block hz i (by omega)
      · rw [if_neg hcond]
        push_neg at hcond
        intro i hi
        rw [hcget i, if_neg (by omega)]
        exact hbelow i hi
    · intro _
      show fimFF m ptr < m.count ∧
        ((clearRun m.block (fimBlock m ptr) (fimSize m ptr)).getD (fimFF m ptr)
          default).used = false
      unfold fimFF
      by_cases hcond : fimBlock m ptr < m.first_free ∨ m.free_count = 0
      · rw [if_pos hcond]
        refine ⟨by omega, ?_⟩
        rw [hcget _, if_pos (by omega)]
      · rw [if_neg hcond]
        push_neg at hcond
        obtain ⟨hc1, hc2⟩ := hcond
        obtain ⟨hfflt, hffused⟩ := hfree hc2
        by_cases hfb : m.first_free = fimBlock m ptr
        · exfalso
          have := hused (fimBlock m ptr) (Nat.le_refl _) (by omega)
          rw [← hfb] at this
          rw [this] at hffused
          exact Bool.noConfusion hffused
        · refine ⟨hfflt, ?_⟩
          rw [hcget _, if_neg (by omega)]
          exact hffused

/-- Allocating the last free block leaves `first_free` unchanged: the rescan
finds no free header and the C loop performs no assignment (there is no
move to the `count` sentinel). -/
theorem abFF_full (m : BlockMap) (hInv : MapInv m) (hfc : m.free_count = 1) :
    (abMap m).first_free = m.first_free := by
  obtain ⟨hlen, hle, hcount, hbelow, hfree⟩ := hInv
  obtain ⟨hfflt, hffused⟩ := hfree (by omega)
  obtain ⟨hcf, _⟩ := countFree_set_used m.block m.first_free
    { size := 1, used := true, unaligned_ptr := abRaw m } (hlen ▸ hfflt) hffused rfl
  have hz : countFree (abBlocks m) = 0 := by
    show countFree (m.block.set m.first_free _) = 0
    rw [hcf, ← hcount, hfc]
  show abFF m = m.first_free
  unfold abFF
  cases hf : findFreeAux (abBlocks m) m.first_free (m.count - m.first_free) with
  | none => rfl
  | some j =>
    obtain ⟨h1, h2, h3, h4⟩ := findFreeAux_some (abBlocks m) _ _ _ hf
    have hj := countFree_zero_used (abBlocks m) hz j h2
    rw [hj] at h3
    exact Bool.noConfusion h3

/-- Claim C1, amended: the block-map invariant the operations preserve is
`first_free ≤ count`, `free_count = #free headers`, all headers below
`first_free` used, and — only when the map still has a free block —
`first_free` points at a free header.  `alloc_block` (under its caller guard
`free_count != 0`) and `alloc_cont_blocks` preserve it, and `free_in_map`
restores it for a valid live run; but when `alloc_block` allocates the last
free block it leaves `first_free` unchanged (pointing at a now-used header),
not at the `count` sentinel — the full-map state is signalled by
`free_count = 0` and repaired by `free_block`'s `heap_is_full` test. -/
theorem claim_C1_amended_invariant :
    (∀ (heap : MmHeap) (level caps alignment : Nat),
      MapInv (heap.map.getD level default) →
      (heap.map.getD level default).free_count ≠ 0 → level < heap.map.length →
      MapInv (((alloc_block heap level caps alignment).2).map.getD level default)) ∧
    (∀ (m : BlockMap), MapInv m → m.free_count = 1 →
      (abMap m).first_free = m.first_free) ∧
    (∀ (heap : MmHeap) (level caps bytes alignment : Nat),
      MapInv (heap.map.getD level default) →
      contNeeded (heap.map.getD level default) bytes ≠ 0 → level < heap.map.length →
      MapInv (((alloc_cont_blocks heap level caps bytes alignment).2).map.getD level default)) ∧
    (∀ (m : BlockMap) (info : HeapInfo) (ptr : Nat),
      MapInv m →
      m.base + m.block_size * fimBlock m ptr = fimPtr1 m ptr →
      1 ≤ fimSize m ptr →
      fimBlock m ptr + fimSize m ptr ≤ m.count →
      (∀ j, fimBlock m ptr ≤ j → j < fimBlock m ptr + fimSize m ptr →
        (m.block.getD j default).used = true) →
      ∀ m2 info2, free_in_map m info ptr = .ok (m2, info2) → MapInv m2) := by
  refine ⟨?_, ?_, ?_, ?_⟩
  · intro heap level caps alignment hInv hfc hlev
    have hmap : ((alloc_block heap level caps alignment).2).map =
        heap.map.set level (abMap (heap.map.getD level default)) := rfl
    rw [hmap, getD_set_same heap.map level _ default hlev]
    exact abMap_inv _ hInv hfc
  · intro m hInv hfc
    exact abFF_full m hInv hfc
  · intro heap level caps bytes alignment hInv hneed hlev
    by_cases hok : contNeeded (heap.map.getD level default) bytes >
        (heap.map.getD level default).count ∨
      (contScanRes (heap.map.getD level default) bytes).2 <
        contNeeded (heap.map.getD level default) bytes
    · rw [alloc_cont_blocks_fail heap level caps bytes alignment hok]
      exact hInv
    · rw [alloc_cont_blocks_succ heap level caps bytes alignment hok]
      show MapInv ((heap.map.set level _).getD level default)
      rw [getD_set_same heap.map level _ default hlev]
      exact contMap_inv _ bytes hInv hneed hok
  · intro m info ptr hInv hres hsz hrange hused m2 info2 hok
    obtain ⟨heq, hinv2⟩ := free_in_map_inv m info ptr hInv hres hsz hrange hused
    rw [heq] at hok
    injection Except.ok.inj hok with h1 h2
    rw [← h1]
    exact hinv2

/-- Two-block map with both blocks free, for the alloc-block branch of the
C1 witness. -/
def c1wHeap : MmHeap :=
  ⟨4096, 128, 1, [⟨64, 2, 4096, 0, 2, [⟨0, false, 0⟩, ⟨0, false, 0⟩]⟩], ⟨0, 128⟩⟩

/-- One-block map with its single block free (`free_count = 1`). -/
def c1wMap1 : BlockMap := ⟨64, 1, 4096, 0, 1, [⟨0, false, 0⟩]⟩

/-- Four-block map heap for the contiguous branch of the C1 witness. -/
def c1wHeap4 : MmHeap :=
  ⟨4096, 256, 1,
   [⟨64, 4, 4096, 0, 4, [⟨0, false, 0⟩, ⟨0, false, 0⟩, ⟨0, false, 0⟩, ⟨0, false, 0⟩]⟩],
   ⟨0, 256⟩⟩

/-- Map with one live single-block allocation, for the free branch of the C1
witness. -/
def c1wFreeMap : BlockMap := ⟨64, 2, 4096, 1, 1, [⟨1, true, 4096⟩, ⟨0, false, 0⟩]⟩

/-- Result of freeing the live block of `c1wFreeMap`. -/
def c1wFreeRes : BlockMap × HeapInfo :=
  (free_in_map c1wFreeMap ⟨64, 64⟩ 4096).toOption.getD (c1wFreeMap, ⟨64, 64⟩)

/-- Witness for the amended claim C1, applying all four parts at concrete
maps. -/
theorem claim_C1_witness :
    MapInv (((alloc_block c1wHeap 0 0 0).2).map.getD 0 default) ∧
    (abMap c1wMap1).first_free = c1wMap1.first_free ∧
    MapInv (((alloc_cont_blocks c1wHeap4 0 0 200 8).2).map.getD 0 default) ∧
    MapInv c1wFreeRes.1 :=
  ⟨claim_C1_amended_invariant.1 c1wHeap 0 0 0 (by decide) (by decide) (by decide),
   claim_C1_amended_invariant.2.1 c1wMap1 (by decide) (by decide),
   claim_C1_amended_invariant.2.2.1 c1wHeap4 0 0 200 8 (by decide) (by decide) (by decide),
   claim_C1_amended_invariant.2.2.2 c1wFreeMap ⟨64, 64⟩ 4096 (by decide) (by decide)
     (by decide) (by decide) (by decide) c1wFreeRes.1 c1wFreeRes.2 (by decide)⟩

/-- A free in-range header makes the free count positive. -/
theorem countFree_pos_of_free : ∀ (bl : List BlockHdr) (i : Nat), i < bl.length →
    (bl.getD i default).used = false → 1 ≤ countFree bl
  | [], i, hi, _ => absurd hi (Nat.not_lt_zero i)
  | a :: t, 0, _, hfree => by
    rw [List.getD_cons_zero] at hfree
    show 1 ≤ (if a.used = true then 0 else 1) + countFree t
    rw [hfree]
    simp
  | a :: t, i + 1, hi, hfree => by
    rw [List.getD_cons_succ] at hfree
    have := countFree_pos_of_free t i (by simpa using hi) hfree
    show 1 ≤ (if a.used = true then 0 else 1) + countFree t
    omega

/-- The block-map search loop of `free_block` stops exactly at the first map
whose end the pointer is below. -/
theorem findMapIdx_spec : ∀ (maps : List BlockMap) (ptr level : Nat),
    level < maps.length →
    (∀ j, j < level → (maps.getD j default).base +
      (maps.getD j default).block_size * (maps.getD j default).count ≤ ptr) →
    ptr < (maps.getD level default).base +
      (maps.getD level default).block_size * (maps.getD level default).count →
    findMapIdx maps ptr = some level := by
  intro maps
  induction maps with
  | nil =>
    intro ptr level hlev
    exact absurd hlev (Nat.not_lt_zero level)
  | cons hd t ih =>
    intro ptr level hlev hbefore hat
    cases level with
    | zero =>
      rw [List.getD_cons_zero] at hat
      show (if ptr < hd.base + hd.block_size * hd.count then some 0 else _) = some 0
      rw [if_pos hat]
    | succ level' =>
      have h0 : hd.base + hd.block_size * hd.count ≤ ptr := by
        have := hbefore 0 (Nat.succ_pos _)
        rw [List.getD_cons_zero] at this
        exact this
      show (if ptr < hd.base + hd.block_size * hd.count then some 0 else
        (findMapIdx t ptr).map (fun k => k + 1)) = some (level' + 1)
      rw [if_neg (by omega)]
      rw [ih ptr level' (by simpa using hlev)
        (by
          intro j hj
          have := hbefore (j + 1) (Nat.succ_lt_succ hj)
          rw [List.getD_cons_succ] at this
          exact this)
        (by
          rw [List.getD_cons_succ] at hat
          exact hat)]
      rfl

/-- Evaluation of the heap-level free when the map search resolves to a map
index and the map-level free succeeds. -/
theorem free_in_heap_at (heap' : MmHeap) (level ptr : Nat) (m2 : BlockMap)
    (info2 : HeapInfo) (hfind : findMapIdx heap'.map ptr = some level)
    (hfim : free_in_map (heap'.map.getD level default) heap'.info ptr = .ok (m2, info2)) :
    free_in_heap heap' ptr =
      .ok { heap' with map := (heap'.map.set level m2), info := info2 } := by
  simp only [free_in_heap, hfind]
  rw [except_bind_ok _ _ (m2, info2) hfim]

/-- Resolution of the free path on the block just allocated by `alloc_block`:
the saved unaligned pointer leads back to the allocated block, whose header
records a run of length 1. -/
theorem fim_after_alloc_block (m : BlockMap) (alignment : Nat) (hInv : MapInv m)
    (hbs : 0 < m.block_size) (hbase : 0 < m.base) (hfc : m.free_count ≠ 0)
    (hshift : align_ptr alignment (abRaw m) - abRaw m < m.block_size) :
    fimPtr1 (abMap m) (align_ptr alignment (abRaw m)) = abRaw m ∧
    fimBlock (abMap m) (align_ptr alignment (abRaw m)) = m.first_free ∧
    fimSize (abMap m) (align_ptr alignment (abRaw m)) = 1 := by
  obtain ⟨hlen, hle, hcount, hbelow, hfree⟩ := hInv
  obtain ⟨hfflt, hffused⟩ := hfree hfc
  have hfflen : m.first_free < m.block.length := hlen ▸ hfflt
  have hraw : abRaw m = m.base + m.first_free * m.block_size := rfl
  have hge : abRaw m ≤ align_ptr alignment (abRaw m) := align_ptr_ge _ _
  have hptr : align_ptr alignment (abRaw m) =
      abRaw m + (align_ptr alignment (abRaw m) - abRaw m) := by omega
  have hsub : align_ptr alignment (abRaw m) - (abMap m).base =
      m.first_free * m.block_size + (align_ptr alignment (abRaw m) - abRaw m) := by
    show align_ptr alignment (abRaw m) - m.base = _
    rw [hraw] at hge ⊢
    omega
  have hdiv : (align_ptr alignment (abRaw m) - (abMap m).base) / (abMap m).block_size =
      m.first_free := by
    rw [hsub]
    show (m.first_free * m.block_size + (align_ptr alignment (abRaw m) - abRaw m)) /
      m.block_size = m.first_free
    rw [Nat.add_comm, Nat.add_mul_div_right _ _ hbs, Nat.div_eq_of_lt hshift, Nat.zero_add]
  have hhdr0 : (abMap m).block.getD
      ((align_ptr alignment (abRaw m) - (abMap m).base) / (abMap m).block_size) default =
      { size := 1, used := true, unaligned_ptr := abRaw m } := by
    rw [hdiv]
    exact getD_set_same m.block m.first_free _ default hfflen
  have hp1 : fimPtr1 (abMap m) (align_ptr alignment (abRaw m)) = abRaw m := by
    unfold fimPtr1
    rw [hhdr0]
    by_cases hz : align_ptr alignment (abRaw m) - abRaw m = 0
    · rw [if_neg]
      · omega
      · intro hc
        exact hc.1 (by
          show abRaw m = align_ptr alignment (abRaw m)
          omega)
    · rw [if_pos]
      constructor
      · show abRaw m ≠ align_ptr alignment (abRaw m)
        omega
      · show abRaw m ≠ 0
        rw [hraw]
        omega
  refine ⟨hp1, ?_, ?_⟩
  · unfold fimBlock
    rw [hp1]
    show (abRaw m - m.base) / m.block_size = m.first_free
    rw [hraw, Nat.add_sub_cancel_left, Nat.mul_div_cancel _ hbs]
  · unfold fimSize fimBlock
    rw [hp1]
    have : (abRaw m - (abMap m).base) / (abMap m).block_size = m.first_free := by
      show (abRaw m - m.base) / m.block_size = m.first_free
      rw [hraw, Nat.add_sub_cancel_left, Nat.mul_div_cancel _ hbs]
    rw [this]
    show ((abBlocks m).getD m.first_free default).size = 1
    unfold abBlocks
    rw [getD_set_same m.block m.first_free _ default hfflen]

/-- Round trip of a single-block allocation: freeing the pointer returned by
`alloc_block` restores the map's `free_count`, the heap byte counters, and
leaves `first_free` no higher than before. -/
theorem roundtrip_single (heap : MmHeap) (level caps alignment : Nat)
    (hInv : MapInv (heap.map.getD level default))
    (hlev : level < heap.map.length)
    (hbs : 0 < (heap.map.getD level default).block_size)
    (hbase : 0 < (heap.map.getD level default).base)
    (hfc : (heap.map.getD level default).free_count ≠ 0)
    (hshift : align_ptr alignment (abRaw (heap.map.getD level default)) -
      abRaw (heap.map.getD level default) < (heap.map.getD level default).block_size)
    (hfreeb : (heap.map.getD level default).block_size ≤ heap.info.free)
    (hbelowmaps : ∀ j, j < level →
      (heap.map.getD j default).base + (heap.map.getD j default).block_size *
        (heap.map.getD j default).count ≤ (heap.map.getD level default).base) :
    ∃ heap2, free_in_heap (alloc_block heap level caps alignment).2
        (alloc_block heap level caps alignment).1 = .ok heap2 ∧
      (heap2.map.getD level default).free_count =
        (heap.map.getD level default).free_count ∧
      heap2.info.used = heap.info.used ∧
      heap2.info.free = heap.info.free ∧
      (heap2.map.getD level default).first_free ≤
        (heap.map.getD level default).first_free := by
  obtain ⟨hlen, hle, hcount, hbelow, hfreeInv⟩ := hInv
  obtain ⟨hfflt, hffused⟩ := hfreeInv hfc
  have hInv' : MapInv (heap.map.getD level default) :=
    ⟨hlen, hle, hcount, hbelow, hfreeInv⟩
  obtain ⟨hp1, hb1, hs1⟩ := fim_after_alloc_block (heap.map.getD level default) alignment
    hInv' hbs hbase hfc hshift
  have hptr : (alloc_block heap level caps alignment).1 =
      align_ptr alignment (abRaw (heap.map.getD level default)) := rfl
  have hmap' : ((alloc_block heap level caps alignment).2).map =
      heap.map.set level (abMap (heap.map.getD level default)) := rfl
  have hinfo' : ((alloc_block heap level caps alignment).2).info =
      ⟨heap.info.used + (heap.map.getD level default).block_size,
       heap.info.free - (heap.map.getD level default).block_size⟩ := rfl
  have hgetD' : ((alloc_block heap level caps alignment).2).map.getD level default =
      abMap (heap.map.getD level default) := by
    rw [hmap']
    exact getD_set_same heap.map level _ default hlev
  have hrawle : abRaw (heap.map.getD level default) ≤
      align_ptr alignment (abRaw (heap.map.getD level default)) := align_ptr_ge _ _
  have hrawdef : abRaw (heap.map.getD level default) =
      (heap.map.getD level default).base +
        (heap.map.getD level default).first_free *
          (heap.map.getD level default).block_size := rfl
  have hub : align_ptr alignment (abRaw (heap.map.getD level default)) <
      (heap.map.getD level default).base +
        (heap.map.getD level default).block_size * (heap.map.getD level default).count := by
    have h1 : ((heap.map.getD level default).first_free + 1) *
        (heap.map.getD level default).block_size ≤
        (heap.map.getD level default).count * (heap.map.getD level default).block_size :=
      Nat.mul_le_mul_right _ hfflt
    rw [Nat.mul_comm (heap.map.getD level default).block_size
      (heap.map.getD level default).count]
    have h2 : ((heap.map.getD level default).first_free + 1) *
        (heap.map.getD level default).block_size =
        (heap.map.getD level default).first_free *
          (heap.map.getD level default).block_size +
          (heap.map.getD level default).block_size := by
      rw [Nat.succ_mul]
    omega
  have hfind : findMapIdx ((alloc_block heap level caps alignment).2).map
      (alloc_block heap level caps alignment).1 = some level := by
    rw [hmap', hptr]
    refine findMapIdx_spec _ _ level (by rw [List.length_set]; exact hlev) ?_ ?_
    · intro j hj
      rw [getD_set_other heap.map level j _ default (by omega)]
      exact Nat.le_trans (hbelowmaps j hj) (Nat.le_trans (by rw [hrawdef]; omega) hrawle)
    · rw [getD_set_same heap.map level _ default hlev]
      show align_ptr alignment (abRaw (heap.map.getD level default)) <
        (heap.map.getD level default).base +
          (heap.map.getD level default).block_size *
            (heap.map.getD level default).count
      exact hub
  obtain ⟨heq, hinv2⟩ := free_in_map_inv (abMap (heap.map.getD level default))
    ((alloc_block heap level caps alignment).2).info
    (alloc_block heap level caps alignment).1
    (abMap_inv _ hInv' hfc)
    (by
      rw [hptr, hb1, hp1]
      show (heap.map.getD level default).base +
        (heap.map.getD level default).block_size *
          (heap.map.getD level default).first_free = _
      rw [hrawdef, Nat.mul_comm])
    (by rw [hptr, hs1])
    (by
      rw [hptr, hb1, hs1]
      show (heap.map.getD level default).first_free + 1 ≤
        (heap.map.getD level default).count
      omega)
    (by
      rw [hptr, hb1, hs1]
      intro j hj1 hj2
      have hj : j = (heap.map.getD level default).first_free := by omega
      rw [hj]
      show ((abBlocks (heap.map.getD level default)).getD
        (heap.map.getD level default).first_free default).used = true
      unfold abBlocks
      rw [getD_set_same _ _ _ default (hlen ▸ hfflt)])
  rw [hptr] at heq
  have heq2 := heq
  rw [← hgetD'] at heq2
  refine ⟨_, free_in_heap_at _ level _ _ _ hfind (by rw [hptr]; exact heq2), ?_, ?_, ?_, ?_⟩
  · rw [getD_set_same _ level _ default (by rw [hmap', List.length_set]; exact hlev)]
    rw [hgetD']
    show (abMap (heap.map.getD level default)).free_count + fimSize _ _ =
      (heap.map.getD level default).free_count
    rw [hs1]
    show (heap.map.getD level default).free_count - 1 + 1 = _
    omega
  · rw [hgetD']
    show ((alloc_block heap level caps alignment).2).info.used -
      fimSize _ _ * (abMap (heap.map.getD level default)).block_size = heap.info.used
    rw [hs1, hinfo']
    show heap.info.used + (heap.map.getD level default).block_size -
      1 * (heap.map.getD level default).block_size = heap.info.used
    omega
  · rw [hgetD']
    show ((alloc_block heap level caps alignment).2).info.free +
      fimSize _ _ * (abMap (heap.map.getD level default)).block_size = heap.info.free
    rw [hs1, hinfo']
    show heap.info.free - (heap.map.getD level default).block_size +
      1 * (heap.map.getD level default).block_size = heap.info.free
    omega
  · rw [getD_set_same _ level _ default (by rw [hmap', List.length_set]; exact hlev)]
    rw [hgetD']
    show fimFF (abMap (heap.map.getD level default))
      (align_ptr alignment (abRaw (heap.map.getD level default))) ≤ _
    unfold fimFF
    rw [hb1]
    by_cases hcond : (heap.map.getD level default).first_free <
        (abMap (heap.map.getD level default)).first_free ∨
      (abMap (heap.map.getD level default)).free_count = 0
    · rw [if_pos hcond]
    · rw [if_neg hcond]
      push_neg at hcond
      exact hcond.1

/-- Resolution of the free path on the run just allocated by
`alloc_cont_blocks`: whatever block of the run the aligned pointer lands in,
the saved unaligned run base leads back to the run's first block, whose
header records the full run length; the lemma also packages the run bounds
and the used/free state of the run's headers before and after marking. -/
theorem fim_after_alloc_cont (m : BlockMap) (bytes alignment : Nat) (hInv : MapInv m)
    (hbs : 0 < m.block_size) (hbase : 0 < m.base)
    (hneed0 : contNeeded m bytes ≠ 0)
    (hok : ¬(contNeeded m bytes > m.count ∨
      (contScanRes m bytes).2 < contNeeded m bytes))
    (hshift : align_ptr alignment (contRaw m bytes) - contRaw m bytes <
      contNeeded m bytes * m.block_size) :
    fimPtr1 (contMap m bytes) (align_ptr alignment (contRaw m bytes)) = contRaw m bytes ∧
    fimBlock (contMap m bytes) (align_ptr alignment (contRaw m bytes)) =
      (contScanRes m bytes).1 ∧
    fimSize (contMap m bytes) (align_ptr alignment (contRaw m bytes)) =
      contNeeded m bytes ∧
    (contScanRes m bytes).1 + contNeeded m bytes ≤ m.count ∧
    m.first_free ≤ (contScanRes m bytes).1 ∧
    (∀ j, (contScanRes m bytes).1 ≤ j →
      j < (contScanRes m bytes).1 + contNeeded m bytes →
      ((contMap m bytes).block.getD j default).used = true) ∧
    (∀ k, (contScanRes m bytes).1 ≤ k →
      k < (contScanRes m bytes).1 + contNeeded m bytes →
      (m.block.getD k default).used = false) ∧
    contNeeded m bytes ≤ m.free_count ∧
    countFree (contMarked m bytes) = m.free_count - contNeeded m bytes := by
  obtain ⟨hlen, hle, hcount, hbelow, hfree⟩ := hInv
  push_neg at hok
  obtain ⟨hcnt, hrem⟩ := hok
  obtain ⟨hstart, hrange, hrunfree⟩ :=
    contScanAux_spec m.block (contNeeded m bytes) m.first_free hneed0
      (m.count - m.first_free) m.first_free m.first_free 0
      (by omega) (Nat.zero_le _)
      (by intro k hk1 hk2; exact absurd hk2 (by omega))
      (fun hz => absurd rfl hz) (Nat.le_refl _) (Nat.le_refl _) hrem
  have hstart : m.first_free ≤ (contScanRes m bytes).1 := hstart
  have hrange : (contScanRes m bytes).1 + contNeeded m bytes ≤ m.block.length := hrange
  have hrunfree : ∀ k, (contScanRes m bytes).1 ≤ k →
      k < (contScanRes m bytes).1 + contNeeded m bytes →
      (m.block.getD k default).used = false := hrunfree
  have hstartlt : (contScanRes m bytes).1 < m.block.length := by omega
  have hbl1len : (contBl1 m bytes).length = m.block.length := List.length_set _ _ _
  have hraw : contRaw m bytes = m.base + (contScanRes m bytes).1 * m.block_size := rfl
  have hge : contRaw m bytes ≤ align_ptr alignment (contRaw m bytes) := align_ptr_ge _ _
  have hmgetD : ∀ j, (contMarked m bytes).getD j default =
      if (contScanRes m bytes).1 ≤ j ∧
          j < (contScanRes m bytes).1 + contNeeded m bytes then
        { (contBl1 m bytes).getD j default with
          used := true, unaligned_ptr := contRaw m bytes }
      else (contBl1 m bytes).getD j default := by
    intro j
    exact markRun_getD (contRaw m bytes) (contNeeded m bytes) (contBl1 m bytes)
      (contScanRes m bytes).1 j (by omega)
  have hblk : (contMap m bytes).block = contMarked m bytes := rfl
  have hq : (align_ptr alignment (contRaw m bytes) - contRaw m bytes) / m.block_size <
      contNeeded m bytes := (Nat.div_lt_iff_lt_mul hbs).mpr hshift
  have hsub : align_ptr alignment (contRaw m bytes) - (contMap m bytes).base =
      (contScanRes m bytes).1 * m.block_size +
        (align_ptr alignment (contRaw m bytes) - contRaw m bytes) := by
    show align_ptr alignment (contRaw m bytes) - m.base = _
    rw [hraw] at hge ⊢
    omega
  have hdiv : (align_ptr alignment (contRaw m bytes) - (contMap m bytes).base) /
      (contMap m bytes).block_size =
      (contScanRes m bytes).1 +
        (align_ptr alignment (contRaw m bytes) - contRaw m bytes) / m.block_size := by
    rw [hsub]
    show ((contScanRes m bytes).1 * m.block_size +
      (align_ptr alignment (contRaw m bytes) - contRaw m bytes)) / m.block_size = _
    rw [Nat.add_comm, Nat.add_mul_div_right _ _ hbs, Nat.add_comm]
  have hhdr0 : (contMap m bytes).block.getD
      ((align_ptr alignment (contRaw m bytes) - (contMap m bytes).base) /
        (contMap m bytes).block_size) default =
      { (contBl1 m bytes).getD ((contScanRes m bytes).1 +
          (align_ptr alignment (contRaw m bytes) - contRaw m bytes) / m.block_size)
          default with
        used := true, unaligned_ptr := contRaw m bytes } := by
    have hwin : (contScanRes m bytes).1 ≤ (contScanRes m bytes).1 +
        (align_ptr alignment (contRaw m bytes) - contRaw m bytes) / m.block_size ∧
        (contScanRes m bytes).1 +
          (align_ptr alignment (contRaw m bytes) - contRaw m bytes) / m.block_size <
          (contScanRes m bytes).1 + contNeeded m bytes := ⟨Nat.le_add_right _ _, by omega⟩
    rw [hblk, hdiv, hmgetD, if_pos hwin]
  have hp1 : fimPtr1 (contMap m bytes) (align_ptr alignment (contRaw m bytes)) =
      contRaw m bytes := by
    unfold fimPtr1
    rw [hhdr0]
    by_cases hz : align_ptr alignment (contRaw m bytes) - contRaw m bytes = 0
    · rw [if_neg]
      · omega
      · intro hc
        exact hc.1 (by
          show contRaw m bytes = align_ptr alignment (contRaw m bytes)
          omega)
    · rw [if_pos]
      constructor
      · show contRaw m bytes ≠ align_ptr alignment (contRaw m bytes)
        omega
      · show contRaw m bytes ≠ 0
        rw [hraw]
        omega
  have hd2 : (contRaw m bytes - (contMap m bytes).base) / (contMap m bytes).block_size =
      (contScanRes m bytes).1 := by
    show (contRaw m bytes - m.base) / m.block_size = _
    rw [hraw, Nat.add_sub_cancel_left, Nat.mul_div_cancel _ hbs]
  have hb1 : fimBlock (contMap m bytes) (align_ptr alignment (contRaw m bytes)) =
      (contScanRes m bytes).1 := by
    unfold fimBlock
    rw [hp1]
    exact hd2
  have hs1 : fimSize (contMap m bytes) (align_ptr alignment (contRaw m bytes)) =
      contNeeded m bytes := by
    unfold fimSize fimBlock
    rw [hp1, hd2, hblk, hmgetD, if_pos ⟨Nat.le_refl _, by omega⟩]
    show ((contBl1 m bytes).getD (contScanRes m bytes).1 default).size = contNeeded m bytes
    unfold contBl1
    rw [getD_set_same _ _ _ default hstartlt]
  have hused1 : ∀ k, ((contBl1 m bytes).getD k default).used =
      (m.block.getD k default).used := by
    intro k
    unfold contBl1
    by_cases hk : k = (contScanRes m bytes).1
    · rw [hk, getD_set_same _ _ _ _ hstartlt]
    · rw [getD_set_other _ _ _ _ _ (fun hc => hk hc.symm)]
  have hfree1 : ∀ k, (contScanRes m bytes).1 ≤ k →
      k < (contScanRes m bytes).1 + contNeeded m bytes →
      ((contBl1 m bytes).getD k default).used = false := by
    intro k hk1 hk2
    rw [hused1 k]
    exact hrunfree k hk1 hk2
  have hcfbl1 : countFree (contBl1 m bytes) = countFree m.block :=
    countFree_set_same_flag m.block _ _ rfl
  obtain ⟨hm1, hm2⟩ := countFree_markRun (contRaw m bytes) (contNeeded m bytes)
    (contBl1 m bytes) (contScanRes m bytes).1 (by omega) hfree1
  refine ⟨hp1, hb1, hs1, by omega, hstart, ?_, hrunfree, ?_, ?_⟩
  · intro j hj1 hj2
    rw [hblk, hmgetD, if_pos ⟨hj1, hj2⟩]
  · rw [hcfbl1, ← hcount] at hm2
    exact hm2
  · show countFree (markRun (contBl1 m bytes) (contRaw m bytes)
      (contScanRes m bytes).1 (contNeeded m bytes)) = _
    rw [hm1, hcfbl1, ← hcount]

/-- Freeing the run just allocated by `alloc_cont_blocks` computes exactly the
pre-allocation `first_free`: when the run started at `first_free` the free's
`block < first_free` test fires against the rescanned value, and otherwise the
map still has a free header below the run so `heap_is_full` does not fire. -/
theorem fimFF_after_cont (m : BlockMap) (bytes alignment : Nat) (hInv : MapInv m)
    (hbs : 0 < m.block_size) (hbase : 0 < m.base)
    (hneed0 : contNeeded m bytes ≠ 0)
    (hok : ¬(contNeeded m bytes > m.count ∨
      (contScanRes m bytes).2 < contNeeded m bytes))
    (hshift : align_ptr alignment (contRaw m bytes) - contRaw m bytes <
      contNeeded m bytes * m.block_size) :
    fimFF (contMap m bytes) (align_ptr alignment (contRaw m bytes)) = m.first_free := by
  obtain ⟨hp1, hb1, hs1, hrange, hstart, hmarked, hrunfree, hnfc, hcfm⟩ :=
    fim_after_alloc_cont m bytes alignment hInv hbs hbase hneed0 hok hshift
  obtain ⟨hlen, hle, hcount, hbelow, hfree⟩ := hInv
  have hbl1len : (contBl1 m bytes).length = m.block.length := List.length_set _ _ _
  unfold fimFF
  rw [hb1]
  have hcf : (contMap m bytes).first_free = contFF m bytes := rfl
  have hfc2 : (contMap m bytes).free_count = m.free_count - contNeeded m bytes := rfl
  by_cases hffs : m.first_free = (contScanRes m bytes).1
  · have hffval : contFF m bytes = ffScanUp (contBl1 m bytes)
        (m.count - ((contScanRes m bytes).1 + contNeeded m bytes))
        ((contScanRes m bytes).1 + contNeeded m bytes) := by
      unfold contFF
      rw [if_pos hffs]
    obtain ⟨f1, f2, f3, f4⟩ := ffScanUp_spec (contBl1 m bytes)
      (m.count - ((contScanRes m bytes).1 + contNeeded m bytes))
      ((contScanRes m bytes).1 + contNeeded m bytes) (by omega)
    rw [if_pos]
    · exact hffs.symm
    · left
      rw [hcf, hffval]
      omega
  · have hffval : contFF m bytes = m.first_free := by
      unfold contFF
      rw [if_neg hffs]
    have hfflt : m.first_free < (contScanRes m bytes).1 := by omega
    rw [if_neg]
    · rw [hcf, hffval]
    · intro hc
      rcases hc with hc1 | hc2
      · rw [hcf, hffval] at hc1
        omega
      · rw [hfc2] at hc2
        have hfffree : ((contMap m bytes).block.getD m.first_free default).used = false := by
          have hmg := markRun_getD (contRaw m bytes) (contNeeded m bytes)
            (contBl1 m bytes) (contScanRes m bytes).1 m.first_free (by omega)
          show ((contMarked m bytes).getD m.first_free default).used = false
          unfold contMarked
          rw [hmg, if_neg (by omega)]
          unfold contBl1
          rw [getD_set_other _ _ _ _ _ (by omega)]
          obtain ⟨_, hffused⟩ := hfree (by omega)
          exact hffused
        have hpos := countFree_pos_of_free (contMap m bytes).block m.first_free
          (by
            show m.first_free < (contMarked m bytes).length
            unfold contMarked
            rw [markRun_length, hbl1len]
            omega) hfffree
        have hpos2 : 1 ≤ countFree (contMarked m bytes) := hpos
        omega

/-- Round trip of a contiguous allocation: freeing the pointer returned by a
successful `alloc_cont_blocks` restores the map's `free_count`, the heap byte
counters, and leaves `first_free` no higher than before. -/
theorem roundtrip_cont (heap : MmHeap) (level caps bytes alignment : Nat)
    (hInv : MapInv (heap.map.getD level default))
    (hlev : level < heap.map.length)
    (hbs : 0 < (heap.map.getD level default).block_size)
    (hbase : 0 < (heap.map.getD level default).base)
    (hneed0 : contNeeded (heap.map.getD level default) bytes ≠ 0)
    (hok : ¬(contNeeded (heap.map.getD level default) bytes >
        (heap.map.getD level default).count ∨
      (contScanRes (heap.map.getD level default) bytes).2 <
        contNeeded (heap.map.getD level default) bytes))
    (hshift : align_ptr alignment (contRaw (heap.map.getD level default) bytes) -
      contRaw (heap.map.getD level default) bytes <
      contNeeded (heap.map.getD level default) bytes *
        (heap.map.getD level default).block_size)
    (hfreeb : contNeeded (heap.map.getD level default) bytes *
      (heap.map.getD level default).block_size ≤ heap.info.free)
    (hbelowmaps : ∀ j, j < level →
      (heap.map.getD j default).base + (heap.map.getD j default).block_size *
        (heap.map.getD j default).count ≤ (heap.map.getD level default).base) :
    ∃ heap2, free_in_heap (alloc_cont_blocks heap level caps bytes alignment).2
        (alloc_cont_blocks heap level caps bytes alignment).1 = .ok heap2 ∧
      (heap2.map.getD level default).free_count =
        (heap.map.getD level default).free_count ∧
      heap2.info.used = heap.info.used ∧
      heap2.info.free = heap.info.free ∧
      (heap2.map.getD level default).first_free ≤
        (heap.map.getD level default).first_free := by
  obtain ⟨hp1, hb1, hs1, hrangeC, hstartC, hmarked, hrunfree, hnfc, hcfm⟩ :=
    fim_after_alloc_cont (heap.map.getD level default) bytes alignment hInv hbs hbase
      hneed0 hok hshift
  have hsucc := alloc_cont_blocks_succ heap level caps bytes alignment hok
  have hptr : (alloc_cont_blocks heap level caps bytes alignment).1 =
      align_ptr alignment (contRaw (heap.map.getD level default) bytes) := by
    rw [hsucc]
  have hmap' : ((alloc_cont_blocks heap level caps bytes alignment).2).map =
      heap.map.set level (contMap (heap.map.getD level default) bytes) := by
    rw [hsucc]
  have hinfo' : ((alloc_cont_blocks heap level caps bytes alignment).2).info =
      ⟨heap.info.used + contNeeded (heap.map.getD level default) bytes *
         (heap.map.getD level default).block_size,
       heap.info.free - contNeeded (heap.map.getD level default) bytes *
         (heap.map.getD level default).block_size⟩ := by
    rw [hsucc]
  have hgetD' : ((alloc_cont_blocks heap level caps bytes alignment).2).map.getD level
      default = contMap (heap.map.getD level default) bytes := by
    rw [hmap']
    exact getD_set_same heap.map level _ default hlev
  have hrawdef : contRaw (heap.map.getD level default) bytes =
      (heap.map.getD level default).base +
        (contScanRes (heap.map.getD level default) bytes).1 *
          (heap.map.getD level default).block_size := rfl
  have hrawle : contRaw (heap.map.getD level default) bytes ≤
      align_ptr alignment (contRaw (heap.map.getD level default) bytes) := align_ptr_ge _ _
  have hub : align_ptr alignment (contRaw (heap.map.getD level default) bytes) <
      (heap.map.getD level default).base +
        (heap.map.getD level default).block_size * (heap.map.getD level default).count := by
    have h1 : ((contScanRes (heap.map.getD level default) bytes).1 +
        contNeeded (heap.map.getD level default) bytes) *
        (heap.map.getD level default).block_size ≤
        (heap.map.getD level default).count * (heap.map.getD level default).block_size :=
      Nat.mul_le_mul_right _ hrangeC
    have h2 : ((contScanRes (heap.map.getD level default) bytes).1 +
        contNeeded (heap.map.getD level default) bytes) *
        (heap.map.getD level default).block_size =
        (contScanRes (heap.map.getD level default) bytes).1 *
          (heap.map.getD level default).block_size +
        contNeeded (heap.map.getD level default) bytes *
          (heap.map.getD level default).block_size := Nat.add_mul _ _ _
    have h3 : (heap.map.getD level default).block_size *
        (heap.map.getD level default).count =
        (heap.map.getD level default).count * (heap.map.getD level default).block_size :=
      Nat.mul_comm _ _
    omega
  have hfind : findMapIdx ((alloc_cont_blocks heap level caps bytes alignment).2).map
      (alloc_cont_blocks heap level caps bytes alignment).1 = some level := by
    rw [hmap', hptr]
    refine findMapIdx_spec _ _ level (by rw [List.length_set]; exact hlev) ?_ ?_
    · intro j hj
      rw [getD_set_other heap.map level j _ default (by omega)]
      exact Nat.le_trans (hbelowmaps j hj) (Nat.le_trans (by rw [hrawdef]; omega) hrawle)
    · rw [getD_set_same heap.map level _ default hlev]
      show align_ptr alignment (contRaw (heap.map.getD level default) bytes) <
        (heap.map.getD level default).base +
          (heap.map.getD level default).block_size *
            (heap.map.getD level default).count
      exact hub
  obtain ⟨heq, hinv2⟩ := free_in_map_inv (contMap (heap.map.getD level default) bytes)
    ((alloc_cont_blocks heap level caps bytes alignment).2).info
    (alloc_cont_blocks heap level caps bytes alignment).1
    (contMap_inv _ bytes hInv hneed0 hok)
    (by
      rw [hptr, hb1, hp1]
      show (heap.map.getD level default).base +
        (heap.map.getD level default).block_size *
          (contScanRes (heap.map.getD level default) bytes).1 =
        contRaw (heap.map.getD level default) bytes
      rw [hrawdef, Nat.mul_comm])
    (by
      rw [hptr, hs1]
      exact Nat.one_le_iff_ne_zero.mpr hneed0)
    (by
      rw [hptr, hb1, hs1]
      show (contScanRes (heap.map.getD level default) bytes).1 +
        contNeeded (heap.map.getD level default) bytes ≤
        (heap.map.getD level default).count
      exact hrangeC)
    (by
      rw [hptr, hb1, hs1]
      exact hmarked)
  rw [hptr] at heq
  have heq2 := heq
  rw [← hgetD'] at heq2
  refine ⟨_, free_in_heap_at _ level _ _ _ hfind (by rw [hptr]; exact heq2), ?_, ?_, ?_, ?_⟩
  · rw [getD_set_same _ level _ default (by rw [hmap', List.length_set]; exact hlev)]
    rw [hgetD']
    show (contMap (heap.map.getD level default) bytes).free_count + fimSize _ _ =
      (heap.map.getD level default).free_count
    rw [hs1]
    show (heap.map.getD level default).free_count -
      contNeeded (heap.map.getD level default) bytes +
      contNeeded (heap.map.getD level default) bytes =
      (heap.map.getD level default).free_count
    omega
  · rw [hgetD']
    show ((alloc_cont_blocks heap level caps bytes alignment).2).info.used -
      fimSize _ _ * (contMap (heap.map.getD level default) bytes).block_size =
      heap.info.used
    rw [hs1, hinfo']
    show heap.info.used + contNeeded (heap.map.getD level default) bytes *
        (heap.map.getD level default).block_size -
      contNeeded (heap.map.getD level default) bytes *
        (heap.map.getD level default).block_size = heap.info.used
    omega
  · rw [hgetD']
    show ((alloc_cont_blocks heap level caps bytes alignment).2).info.free +
      fimSize _ _ * (contMap (heap.map.getD level default) bytes).block_size =
      heap.info.free
    rw [hs1, hinfo']
    show heap.info.free - contNeeded (heap.map.getD level default) bytes *
        (heap.map.getD level default).block_size +
      contNeeded (heap.map.getD level default) bytes *
        (heap.map.getD level default).block_size = heap.info.free
    omega
  · rw [getD_set_same _ level _ default (by rw [hmap', List.length_set]; exact hlev)]
    rw [hgetD']
    show fimFF (contMap (heap.map.getD level default) bytes)
      (align_ptr alignment (contRaw (heap.map.getD level default) bytes)) ≤
      (heap.map.getD level default).first_free
    exact Nat.le_of_eq (fimFF_after_cont (heap.map.getD level default) bytes alignment
      hInv hbs hbase hneed0 hok hshift)

/-- Claim C2: for every allocation that succeeds from a block-map heap —
a single block from `alloc_block` under its caller guard `free_count != 0`,
or a contiguous run from `alloc_cont_blocks` under its own success guards —
immediately freeing the returned pointer through `free_in_heap` succeeds and
restores the owning block map's `free_count` and the heap's `info.used` and
`info.free` to their values from before the allocation, with the map's
`first_free` ending no higher than its prior value. -/
theorem claim_C2_roundtrip :
    (∀ (heap : MmHeap) (level caps alignment : Nat),
      MapInv (heap.map.getD level default) →
      level < heap.map.length →
      0 < (heap.map.getD level default).block_size →
      0 < (heap.map.getD level default).base →
      (heap.map.getD level default).free_count ≠ 0 →
      align_ptr alignment (abRaw (heap.map.getD level default)) -
        abRaw (heap.map.getD level default) <
        (heap.map.getD level default).block_size →
      (heap.map.getD level default).block_size ≤ heap.info.free →
      (∀ j, j < level →
        (heap.map.getD j default).base + (heap.map.getD j default).block_size *
          (heap.map.getD j default).count ≤ (heap.map.getD level default).base) →
      ∃ heap2, free_in_heap (alloc_block heap level caps alignment).2
          (alloc_block heap level caps alignment).1 = .ok heap2 ∧
        (heap2.map.getD level default).free_count =
          (heap.map.getD level default).free_count ∧
        heap2.info.used = heap.info.used ∧
        heap2.info.free = heap.info.free ∧
        (heap2.map.getD level default).first_free ≤
          (heap.map.getD level default).first_free) ∧
    (∀ (heap : MmHeap) (level caps bytes alignment : Nat),
      MapInv (heap.map.getD level default) →
      level < heap.map.length →
      0 < (heap.map.getD level default).block_size →
      0 < (heap.map.getD level default).base →
      contNeeded (heap.map.getD level default) bytes ≠ 0 →
      ¬(contNeeded (heap.map.getD level default) bytes >
          (heap.map.getD level default).count ∨
        (contScanRes (heap.map.getD level default) bytes).2 <
          contNeeded (heap.map.getD level default) bytes) →
      align_ptr alignment (contRaw (heap.map.getD level default) bytes) -
        contRaw (heap.map.getD level default) bytes <
        contNeeded (heap.map.getD level default) bytes *
          (heap.map.getD level default).block_size →
      contNeeded (heap.map.getD level default) bytes *
        (heap.map.getD level default).block_size ≤ heap.info.free →
      (∀ j, j < level →
        (heap.map.getD j default).base + (heap.map.getD j default).block_size *
          (heap.map.getD j default).count ≤ (heap.map.getD level default).base) →
      ∃ heap2, free_in_heap (alloc_cont_blocks heap level caps bytes alignment).2
          (alloc_cont_blocks heap level caps bytes alignment).1 = .ok heap2 ∧
        (heap2.map.getD level default).free_count =
          (heap.map.getD level default).free_count ∧
        heap2.info.used = heap.info.used ∧
        heap2.info.free = heap.info.free ∧
        (heap2.map.getD level default).first_free ≤
          (heap.map.getD level default).first_free) :=
  ⟨fun heap level caps alignment h1 h2 h3 h4 h5 h6 h7 h8 =>
    roundtrip_single heap level caps alignment h1 h2 h3 h4 h5 h6 h7 h8,
   fun heap level caps bytes alignment h1 h2 h3 h4 h5 h6 h7 h8 h9 =>
    roundtrip_cont heap level caps bytes alignment h1 h2 h3 h4 h5 h6 h7 h8 h9⟩

/-- Concrete block map for instantiating the round-trip law: four free
8-byte blocks at base 64. -/
def mapC2 : BlockMap :=
  { block_size := 8, count := 4, base := 64, first_free := 0, free_count := 4,
    block := [⟨0, false, 0⟩, ⟨0, false, 0⟩, ⟨0, false, 0⟩, ⟨0, false, 0⟩] }

/-- Concrete one-map heap for instantiating the round-trip law. -/
def heapC2 : MmHeap :=
  { heap := 64, size := 32, caps := 0, map := [mapC2],
    info := { used := 0, free := 32 } }

/-- Witness for the round-trip law at a concrete heap: a single-block
allocation with alignment 0 and a two-block contiguous allocation of 16
bytes, each freed immediately. -/
theorem claim_C2_witness :
    (∃ heap2, free_in_heap (alloc_block heapC2 0 0 0).2
        (alloc_block heapC2 0 0 0).1 = .ok heap2 ∧
      (heap2.map.getD 0 default).free_count =
        (heapC2.map.getD 0 default).free_count ∧
      heap2.info.used = heapC2.info.used ∧
      heap2.info.free = heapC2.info.free ∧
      (heap2.map.getD 0 default).first_free ≤
        (heapC2.map.getD 0 default).first_free) ∧
    (∃ heap2, free_in_heap (alloc_cont_blocks heapC2 0 0 16 0).2
        (alloc_cont_blocks heapC2 0 0 16 0).1 = .ok heap2 ∧
      (heap2.map.getD 0 default).free_count =
        (heapC2.map.getD 0 default).free_count ∧
      heap2.info.used = heapC2.info.used ∧
      heap2.info.free = heapC2.info.free ∧
      (heap2.map.getD 0 default).first_free ≤
        (heapC2.map.getD 0 default).first_free) :=
  ⟨claim_C2_roundtrip.1 heapC2 0 0 0 (by decide) (by decide) (by decide) (by decide)
     (by decide) (by decide) (by decide)
     (fun j hj => absurd hj (Nat.not_lt_zero j)),
   claim_C2_roundtrip.2 heapC2 0 0 16 0 (by decide) (by decide) (by decide) (by decide)
     (by decide) (by decide) (by decide) (by decide)
     (fun j hj => absurd hj (Nat.not_lt_zero j))⟩
